import Mathlib

/-!
A verification development for the tgo function-call tracer.

The Go sources are shallowly embedded as executable Lean definitions:

* `src/tracee/value.go`   — the value parser (`valueParser.parseValue` and
  friends) over a deep embedding of DWARF types, byte buffers and a remote
  memory reader.
* `src/tracee/binary.go`  — parameter-offset derivation from DWARF location
  expressions (`parameterOffset`, `decodeSignedLEB128`,
  `subprogramReader.offsetWithLocationDesc`).
* `src/debugapi/client_darwin.go` — hex encoding of register payloads
  (`hexToUint64`, `uint64ToHex`, `parseRegisterData`, `WriteRegisters`),
  the step/continue command construction, the stop-reply handler
  (`handleTPacket`) and the TLS-read routine (`ReadTLS`,
  `updateReadTLSFunction`).
* `src/service/service.go` together with the tracer controller interface —
  trace-point bookkeeping.

Conventions:

* Go byte slices are `List Nat` with every element `< 256`.
* Machine integers are `Nat`/`Int`; where Go wraps (`uint64` address
  arithmetic) the embedding takes the result `% 2 ^ 64` explicitly.
* Fallible Go code (errors as well as runtime panics such as out-of-range
  slicing, failing type assertions and nil dereferences) returns `Option`;
  `none` covers both.
* The value parser can diverge in Go (cyclic overflow-bucket chains, the
  runtime-type resolver returning ever larger types), so the embedding
  threads an explicit `fuel : Nat` that shrinks at every nested parse call;
  `none` is returned when the fuel runs out.
-/

namespace Tgo

/-- Little-endian interpretation of a byte list (least significant first). -/
def leUint : List Nat → Nat
  | [] => 0
  | b :: rest => b + 256 * leUint rest

/-- `binary.LittleEndian.Uint64`: needs at least 8 bytes (Go panics
otherwise), uses the first 8. -/
def leUint64 (val : List Nat) : Option Nat :=
  if 8 ≤ val.length then some (leUint (val.take 8)) else none

/-- `binary.LittleEndian.Uint32`: needs at least 4 bytes, uses the first 4. -/
def leUint32 (val : List Nat) : Option Nat :=
  if 4 ≤ val.length then some (leUint (val.take 4)) else none

/-- `binary.LittleEndian.Uint16`: needs at least 2 bytes, uses the first 2. -/
def leUint16 (val : List Nat) : Option Nat :=
  if 2 ≤ val.length then some (leUint (val.take 2)) else none

/-- `binary.LittleEndian.PutUint64`: the 8 little-endian bytes of `n`. -/
def leBytes8 (n : Nat) : List Nat :=
  (List.range 8).map fun i => n / 256 ^ i % 256

/-- `binary.LittleEndian.PutUint32`: the 4 little-endian bytes of `n`. -/
def leBytes4 (n : Nat) : List Nat :=
  (List.range 4).map fun i => n / 256 ^ i % 256

/-- Two's-complement reading of an unsigned value of `bits` bits, as in a
Go conversion such as `int64(u)`. -/
def toSigned (bits : Nat) (n : Nat) : Int :=
  if n < 2 ^ (bits - 1) then (n : Int) else (n : Int) - 2 ^ bits

/-- Go slice expression `val[lo:hi]` (panics unless `0 ≤ lo ≤ hi ≤ len`). -/
def goSlice (val : List Nat) (lo hi : Int) : Option (List Nat) :=
  if 0 ≤ lo ∧ lo ≤ hi ∧ hi ≤ val.length then
    some ((val.take hi.toNat).drop lo.toNat)
  else
    none

/-- Truncation to `uint64`, as in Go unsigned address arithmetic. -/
def wrap64 (n : Nat) : Nat := n % 2 ^ 64

/-! ## DWARF types

A deep embedding of the `debug/dwarf` type graph, restricted to the
constructors `valueParser.parseValue` dispatches on.  Byte sizes are the
stored `ByteSize` attributes; `size` mirrors `dwarf.Type.Size()`. -/

/-- The `debug/dwarf` types handled by `valueParser.parseValue`.  A struct
field is `(name, byte offset, type)`. -/
inductive DwarfType where
  | int (byteSize : Nat)
  | uint (byteSize : Nat)
  | float (byteSize : Nat)
  | complex (byteSize : Nat)
  | bool (byteSize : Nat)
  | ptr (byteSize : Nat) (elem : DwarfType)
  | func (byteSize : Nat)
  | strukt (structName : String) (byteSize : Nat)
      (fields : List (String × Int × DwarfType))
  | array (count : Int) (elem : DwarfType)
  | typedef (name : String) (underlying : DwarfType)
  | void (byteSize : Nat)

/-- `dwarf.Type.Size()`: stored byte size, with the array size computed as
`Count * Type.Size()` and the typedef size delegated to the underlying
type, as in `debug/dwarf`. -/
def DwarfType.size : DwarfType → Int
  | .int sz => sz
  | .uint sz => sz
  | .float sz => sz
  | .complex sz => sz
  | .bool sz => sz
  | .ptr sz _ => sz
  | .func sz => sz
  | .strukt _ sz _ => sz
  | .array count elem => count * elem.size
  | .typedef _ t => t.size
  | .void sz => sz

/-! ## Formatting helpers

Models of the Go standard-library formatting routines the value renderers
call (`fmt.Sprintf` with `%d`, `%t`, `%g`, `%#x`, `%x`, `%02x`, `%016x`,
`strconv.Quote`, `strings.Join`).  These stand in for library code that is
external to the repository. -/

/-- Lowercase hex digit character. -/
def hexDigitChar (d : Nat) : Char :=
  if d < 10 then Char.ofNat (48 + d) else Char.ofNat (87 + d)

/-- Digit loop for `natHexDigits`, structurally recursive on a fuel that
bounds the digit count. -/
def natHexDigitsAux (fuel : Nat) (n : Nat) : List Char :=
  match fuel with
  | 0 => []
  | fuel + 1 =>
    if n < 16 then [hexDigitChar n]
    else natHexDigitsAux fuel (n / 16) ++ [hexDigitChar (n % 16)]

/-- Lowercase hexadecimal digits of `n`, most significant first
(`"0"` for zero), as produced by the `%x` verb. -/
def natHexDigits (n : Nat) : List Char :=
  natHexDigitsAux (n + 1) n

/-- `fmt.Sprintf("%x", n)` for an unsigned value. -/
def fmtHex (n : Nat) : String := String.mk (natHexDigits n)

/-- `fmt.Sprintf("%#x", n)`: `0x` followed by the lowercase hex digits
(`"0x0"` for zero). -/
def fmtHexAlt (n : Nat) : String := "0x" ++ fmtHex n

/-- Left-pad a character list to width `w` with `c` (the `%0Nx` verbs). -/
def padLeft (c : Char) (w : Nat) (l : List Char) : List Char :=
  List.replicate (w - l.length) c ++ l

/-- `fmt.Sprintf("%02x", n)`. -/
def fmtHex02 (n : Nat) : String := String.mk (padLeft '0' 2 (natHexDigits n))

/-- `strconv.Quote` on a byte string, modelled at the byte level: printable
ASCII is kept, the standard escapes are used for `\a\b\f\n\r\t\v`, quote and
backslash, and every other byte is `\xHH`.  (Valid multi-byte UTF-8
sequences, which `strconv.Quote` would keep as runes, are escaped byte-wise
here; no claim below renders such a string.) -/
def goQuoteByte (b : Nat) : List Char :=
  if b = 34 then ['\\', '"']
  else if b = 92 then ['\\', '\\']
  else if b = 7 then ['\\', 'a']
  else if b = 8 then ['\\', 'b']
  else if b = 12 then ['\\', 'f']
  else if b = 10 then ['\\', 'n']
  else if b = 13 then ['\\', 'r']
  else if b = 9 then ['\\', 't']
  else if b = 11 then ['\\', 'v']
  else if 32 ≤ b ∧ b ≤ 126 then [Char.ofNat b]
  else '\\' :: 'x' :: padLeft '0' 2 (natHexDigits b)

/-- `strings.HasPrefix(s, pre)`, modelled on the character lists
(`String.startsWith` is not kernel-reducible). -/
def hasStrPre (s pre : String) : Bool :=
  pre.data.isPrefixOf s.data

/-- `strconv.Quote` of the Go string built from `bytes`. -/
def goQuote (bytes : List Nat) : String :=
  "\"" ++ String.mk (bytes.flatMap goQuoteByte) ++ "\""

/-! ## Floats

`math.Float64frombits` / `math.Float32frombits` decode IEEE-754 bit
patterns; nonzero finite values are kept exactly as `± mant · 2 ^ exp2`.
The `%g` verb is `strconv.FormatFloat(v, 'g', -1, bitSize)`: the shortest
decimal digit string that converts back to the same float, laid out in `%e`
style when the decimal exponent is `< -4` or `≥ 6` and `%f` style
otherwise.  The shortest-digits search below follows that specification
directly: it tries 1, 2, … significant digits, rounding the exact binary
value to that many digits and checking the decimal converts back to the
original float under round-to-nearest-even. -/

/-- A decoded IEEE-754 value. -/
inductive GoFloat where
  | zero (neg : Bool)
  | finite (neg : Bool) (mant : Nat) (exp2 : Int)
  | inf (neg : Bool)
  | nan
deriving DecidableEq

/-- `math.Float64frombits`. -/
def float64FromBits (bits : Nat) : GoFloat :=
  let s : Bool := bits / 2 ^ 63 % 2 == 1
  let e : Nat := bits / 2 ^ 52 % 2 ^ 11
  let m : Nat := bits % 2 ^ 52
  if e = 0 then
    if m = 0 then .zero s else .finite s m (-1074)
  else if e = 2047 then
    if m = 0 then .inf s else .nan
  else
    .finite s (2 ^ 52 + m) ((e : Int) - 1075)

/-- `math.Float32frombits`. -/
def float32FromBits (bits : Nat) : GoFloat :=
  let s : Bool := bits / 2 ^ 31 % 2 == 1
  let e : Nat := bits / 2 ^ 23 % 2 ^ 8
  let m : Nat := bits % 2 ^ 23
  if e = 0 then
    if m = 0 then .zero s else .finite s m (-149)
  else if e = 255 then
    if m = 0 then .inf s else .nan
  else
    .finite s (2 ^ 23 + m) ((e : Int) - 150)

/-- Rounding parameters of a binary floating-point format. -/
structure FloatFmtParams where
  prec : Nat
  minExp : Int
  maxExp : Int
  maxDigits : Nat

/-- IEEE-754 binary64. -/
def f64Params : FloatFmtParams := ⟨53, -1074, 971, 17⟩

/-- IEEE-754 binary32. -/
def f32Params : FloatFmtParams := ⟨24, -149, 104, 9⟩

/-- Round `a / b` to the nearest integer, ties to even. -/
def nearestEven (a b : Nat) : Nat :=
  let q := a / b
  let r := a % b
  if 2 * r < b then q
  else if b < 2 * r then q + 1
  else if q % 2 = 0 then q else q + 1

/-- Round the positive rational `num / den` to the nearest value of the
format `P` (round to nearest, ties to even; overflow to infinity). -/
def roundFloatPos (P : FloatFmtParams) (num den : Nat) : GoFloat :=
  let a := num * 2 ^ (-P.minExp).toNat
  let n0 := a / den
  let shift := if n0 < 2 ^ P.prec then 0 else n0.log2 + 1 - P.prec
  let m := nearestEven a (den * 2 ^ shift)
  let m2 := if m = 2 ^ P.prec then 2 ^ (P.prec - 1) else m
  let shift2 := if m = 2 ^ P.prec then shift + 1 else shift
  if m2 = 0 then .zero false
  else if P.maxExp < P.minExp + shift2 then .inf false
  else .finite false m2 (P.minExp + shift2)

/-- Whether two positive mantissa/exponent pairs denote the same rational. -/
def valEq (m1 : Nat) (e1 : Int) (m2 : Nat) (e2 : Int) : Bool :=
  if e1 ≤ e2 then m1 = m2 * 2 ^ (e2 - e1).toNat else m2 = m1 * 2 ^ (e1 - e2).toNat

/-- Decimal exponent `e10` of the positive rational `num / den`:
`10 ^ e10 ≤ num / den < 10 ^ (e10 + 1)` (valid for every positive float of
the two formats). -/
def decExp (num den : Nat) : Int :=
  (Nat.log 10 (num * 10 ^ 1200 / den) : Int) - 1200

/-- The decimal with `nd` significant digits nearest to `num / den`:
returns the digit block `D` and the weight `k` of its last digit
(the value represented is `D · 10 ^ k`). -/
def roundDecimal (num den : Nat) (e10 : Int) (nd : Nat) : Nat × Int :=
  let k := e10 - nd + 1
  let D :=
    if 0 ≤ k then nearestEven num (den * 10 ^ k.toNat)
    else nearestEven (num * 10 ^ (-k).toNat) den
  if D = 10 ^ nd then (10 ^ (nd - 1), k + 1) else (D, k)

/-- The rational value of the decimal `D · 10 ^ k` as a fraction. -/
def ratOfDec (D : Nat) (k : Int) : Nat × Nat :=
  if 0 ≤ k then (D * 10 ^ k.toNat, 1) else (D, 10 ^ (-k).toNat)

/-- Whether the decimal `D · 10 ^ k` converts back to the float
`mant · 2 ^ exp2` of format `P`. -/
def decConvertsBack (P : FloatFmtParams) (mant : Nat) (exp2 : Int)
    (D : Nat) (k : Int) : Bool :=
  let nd := ratOfDec D k
  match roundFloatPos P nd.1 nd.2 with
  | .finite _ m e => valEq m e mant exp2
  | _ => false

/-- The least digit count in `[nd, P.maxDigits]` whose nearest decimal
round-trips (falling back to `P.maxDigits`, which always round-trips). -/
def shortestNd (P : FloatFmtParams) (num den : Nat) (e10 : Int)
    (mant : Nat) (exp2 : Int) (nd : Nat) : Nat :=
  if h : P.maxDigits ≤ nd then P.maxDigits
  else
    let Dk := roundDecimal num den e10 nd
    if decConvertsBack P mant exp2 Dk.1 Dk.2 then nd
    else shortestNd P num den e10 mant exp2 (nd + 1)
termination_by P.maxDigits - nd
decreasing_by omega

/-- Strip trailing decimal zeros: returns the stripped value and the number
of zeros removed. -/
def stripZeros (D : Nat) : Nat × Nat :=
  if h : D = 0 ∨ D % 10 ≠ 0 then (D, 0)
  else
    let p := stripZeros (D / 10)
    (p.1, p.2 + 1)
decreasing_by exact Nat.div_lt_self (by omega) (by omega)

/-- Shortest-round-trip decimal digits of the positive float
`mant · 2 ^ exp2`: the digit characters (no trailing zeros) and the
decimal-point position `dp` (the value is `0.digits · 10 ^ dp`). -/
def shortestDigits (P : FloatFmtParams) (mant : Nat) (exp2 : Int) :
    List Char × Int :=
  let nd0 := if 0 ≤ exp2 then (mant * 2 ^ exp2.toNat, 1) else (mant, 2 ^ (-exp2).toNat)
  let e10 := decExp nd0.1 nd0.2
  let n := shortestNd P nd0.1 nd0.2 e10 mant exp2 1
  let Dk := roundDecimal nd0.1 nd0.2 e10 n
  let s := stripZeros Dk.1
  let ds := (toString s.1).toList
  (ds, ds.length + (Dk.2 + s.2))

/-- The exponent field of `%e` layout: sign and at least two digits. -/
def fmtExpField (exp : Int) : String :=
  (if exp < 0 then "e-" else "e+") ++
    (if exp.natAbs < 10 then "0" else "") ++ toString exp.natAbs

/-- Lay out shortest digits `ds` with decimal point `dp` following
`strconv.FormatFloat(_, 'g', -1, _)`: `%e` style when the exponent is
`< -4` or `≥ 6`, `%f` style otherwise. -/
def fmtGLayout (ds : List Char) (dp : Int) : String :=
  let exp := dp - 1
  if exp < -4 ∨ 6 ≤ exp then
    String.mk (ds.take 1) ++
      (if ds.length > 1 then "." ++ String.mk (ds.drop 1) else "") ++
      fmtExpField exp
  else if dp ≤ 0 then
    "0." ++ String.mk (List.replicate (-dp).toNat '0' ++ ds)
  else if (ds.length : Int) ≤ dp then
    String.mk (ds ++ List.replicate (dp.toNat - ds.length) '0')
  else
    String.mk (ds.take dp.toNat) ++ "." ++ String.mk (ds.drop dp.toNat)

/-- `fmt.Sprintf("%g", v)` for a decoded float of format `P`. -/
def fmtG (P : FloatFmtParams) : GoFloat → String
  | .nan => "NaN"
  | .inf neg => if neg then "-Inf" else "+Inf"
  | .zero neg => if neg then "-0" else "0"
  | .finite neg m e =>
    let dd := shortestDigits P m e
    (if neg then "-" else "") ++ fmtGLayout dd.1 dd.2

/-! ## Parsed values

The `value` interface of `src/tracee/value.go`: one constructor per value
struct.  Each carries the DWARF type it was parsed against (the Go structs
embed their `dwarf` type), the integer constructors additionally record
which of the fixed-width variants (`int8Value` … `int64Value`,
`uint8Value` … `uint64Value`) was built.  A pointer's `pointedVal` and a
slice's elements may be absent (`nil` in Go). -/

/-- A parsed value (the `value` interface implementations). -/
inductive Value where
  | intV (typ : DwarfType) (sz : Nat) (v : Int)
  | uintV (typ : DwarfType) (sz : Nat) (v : Nat)
  | floatV (typ : DwarfType) (sz : Nat) (f : GoFloat)
  | complexV (typ : DwarfType) (sz : Nat) (re im : GoFloat)
  | boolV (typ : DwarfType) (v : Bool)
  | ptrV (typ : DwarfType) (addr : Nat) (pointed : Option Value)
  | funcV (typ : DwarfType) (addr : Nat)
  | stringV (typ : DwarfType) (bytes : List Nat)
  | sliceV (typ : DwarfType) (elems : List (Option Value))
  | structV (typ : DwarfType) (fields : List (String × Value)) (abbreviated : Bool)
  | ifaceV (typ : DwarfType) (implType : Option DwarfType) (implVal : Option Value)
      (abbreviated : Bool)
  | arrayV (typ : DwarfType) (elems : List Value)
  | mapV (typ : DwarfType) (entries : List (Value × Value))
  | voidV (typ : DwarfType) (raw : List Nat)

/-- The DWARF type a value was parsed against. -/
def Value.typ : Value → DwarfType
  | .intV t _ _ => t
  | .uintV t _ _ => t
  | .floatV t _ _ => t
  | .complexV t _ _ _ => t
  | .boolV t _ => t
  | .ptrV t _ _ => t
  | .funcV t _ => t
  | .stringV t _ => t
  | .sliceV t _ => t
  | .structV t _ _ => t
  | .ifaceV t _ _ _ => t
  | .arrayV t _ => t
  | .mapV t _ => t
  | .voidV t _ => t

/-- `value.Size()`: every implementation returns its DWARF type's size. -/
def Value.size (v : Value) : Int := v.typ.size

/-- Model of `dwarf.Type.String()`, used only by `interfaceValue.String`
to name the concrete type. -/
def DwarfType.typeString : DwarfType → String
  | .int _ => "int"
  | .uint _ => "uint"
  | .float _ => "float"
  | .complex _ => "complex"
  | .bool _ => "bool"
  | .ptr _ elem => "*" ++ elem.typeString
  | .func _ => "func"
  | .strukt name _ _ => "struct " ++ name
  | .array count elem => "[" ++ toString count ++ "]" ++ elem.typeString
  | .typedef name _ => name
  | .void _ => "void"

/-- `%g` rendering picked by the value's byte size (4 → `float32`, else
`float64`), as the separate `float32Value`/`float64Value` structs do. -/
def fmtGSized (sz : Nat) (f : GoFloat) : String :=
  fmtG (if sz = 4 then f32Params else f64Params) f

/-- Imaginary part of `%g` on a complex value: always carries a sign. -/
def fmtGSigned (sz : Nat) (f : GoFloat) : String :=
  let s := fmtGSized sz f
  if s.startsWith "-" then s else "+" ++ s

/-- `maxContainerItemsToPrint` (value.go). -/
def maxContainerItemsToPrint : Nat := 8

mutual

/-- The `String()` methods of the value structs.  `none` models a Go panic
(rendering a `nil` element of a slice).  Where Go ranges over a map
(struct fields, map entries) the embedding uses the recorded insertion
order; no claim below depends on that order. -/
def renderValue : Value → Option String
  | .intV _ _ v => some (toString v)
  | .uintV _ _ v => some (toString v)
  | .floatV _ sz f => some (fmtGSized sz f)
  | .complexV _ sz re im =>
    some ("(" ++ fmtGSized (sz / 2) re ++ fmtGSigned (sz / 2) im ++ "i)")
  | .boolV _ v => some (if v then "true" else "false")
  | .ptrV _ addr pointed =>
    match pointed with
    | some pv => do
      let s ← renderValue pv
      some ("&" ++ s)
    | none => some (fmtHexAlt addr)
  | .funcV _ addr => some (fmtHexAlt addr)
  | .stringV _ bytes => some (goQuote bytes)
  | .sliceV _ elems =>
    if elems.length = 0 then some "nil"
    else do
      let vals ← renderOpts maxContainerItemsToPrint elems
      if maxContainerItemsToPrint < elems.length then
        some ("[]\x7b" ++ String.intercalate ", " vals ++ ", ...\x7d")
      else
        some ("[]\x7b" ++ String.intercalate ", " vals ++ "\x7d")
  | .structV _ fields ab =>
    if ab then some "\x7b...\x7d"
    else do
      let vals ← renderFields fields
      some ("\x7b" ++ String.intercalate ", " vals ++ "\x7d")
  | .ifaceV _ implType implVal ab =>
    if ab then some "\x7b...\x7d"
    else
      match implType, implVal with
      | none, _ => some "nil"
      | some t, some iv => do
        let s ← renderValue iv
        let tn := t.typeString
        let tn := if hasStrPre tn "struct " then String.mk (tn.data.drop 7) else tn
        some (tn ++ "(" ++ s ++ ")")
      | some _, none => none
  | .arrayV _ elems => do
    let vals ← renderElems maxContainerItemsToPrint elems
    if maxContainerItemsToPrint < elems.length then
      some ("[" ++ toString vals.length ++ "]\x7b" ++
        String.intercalate ", " vals ++ ", ...\x7d")
    else
      some ("[" ++ toString vals.length ++ "]\x7b" ++
        String.intercalate ", " vals ++ "\x7d")
  | .mapV _ entries => do
    let vals ← renderPairs entries
    some ("\x7b" ++ String.intercalate ", " vals ++ "\x7d")
  | .voidV _ raw =>
    some ("[" ++ String.intercalate " " (raw.map toString) ++ "]")

/-- Render at most `k` leading elements, failing on an absent one (the
slice-rendering loop with its `maxContainerItemsToPrint` cutoff). -/
def renderOpts : Nat → List (Option Value) → Option (List String)
  | _, [] => some []
  | 0, _ :: _ => some []
  | k + 1, e :: rest =>
    match e with
    | none => none
    | some v => do
      let s ← renderValue v
      let rs ← renderOpts k rest
      some (s :: rs)

/-- Render at most `k` leading array elements. -/
def renderElems : Nat → List Value → Option (List String)
  | _, [] => some []
  | 0, _ :: _ => some []
  | k + 1, v :: rest => do
    let s ← renderValue v
    let rs ← renderElems k rest
    some (s :: rs)

/-- Render struct fields as `name: value`. -/
def renderFields : List (String × Value) → Option (List String)
  | [] => some []
  | (n, v) :: rest => do
    let s ← renderValue v
    let rs ← renderFields rest
    some ((n ++ ": " ++ s) :: rs)

/-- Render map entries as `key: value`. -/
def renderPairs : List (Value × Value) → Option (List String)
  | [] => some []
  | (k, v) :: rest => do
    let ks ← renderValue k
    let vs ← renderValue v
    let rs ← renderPairs rest
    some ((ks ++ ": " ++ vs) :: rs)

end

/-! ## The value parser

`valueParser` from `src/tracee/value.go`.  The reader is the debug-API
client's `ReadMemory` (`none` = error), `mapRuntimeType` the optional
runtime-type resolver.  Go map fields (`structValue.fields`) become
association lists in insertion order with last-write-wins lookup; a lookup
of a missing key gives the `nil` interface value whose subsequent type
assertion panics, hence `none`. -/

/-- The `valueParser` struct: a memory reader and the optional
runtime-type resolver. -/
structure VParser where
  read : Nat → Nat → Option (List Nat)
  mapRuntimeType : Option (Nat → Option DwarfType)

/-- Go `uint64(i)` of a signed value: the two's-complement bit pattern. -/
def u64ofInt (i : Int) : Nat := (i % (2 ^ 64 : Int)).toNat

/-- Lookup in a `map[string]value` built by successive assignment:
the last binding of a name wins; a missing name is the `nil` interface. -/
def lookupGoMap (flds : List (String × Value)) (name : String) : Option Value :=
  match flds.reverse.find? (fun f => f.1 == name) with
  | some f => some f.2
  | none => none

/-- The fields of a value that is (asserted to be) a `structValue`. -/
def asStructFields : Value → Option (List (String × Value))
  | .structV _ f _ => some f
  | _ => none

/-- The `tophash` loop of `parseBucket`: slot `j` is live exactly when
`tophash[j] != 0`; live slots pair `keys[j]` with `values[j]`.  Each hash
must be a `uint8Value` and the key/value indices must be in range (Go
panics otherwise). -/
def bucketEntries : List Value → List Value → List Value → Nat →
    Option (List (Value × Value))
  | [], _, _, _ => some []
  | h :: rest, ks, vs, j => do
    let hv ← match h with | .uintV _ 1 x => some x | _ => none
    let tail ← bucketEntries rest ks vs (j + 1)
    if hv = 0 then some tail
    else do
      let k ← ks.get? j
      let v ← vs.get? j
      some ((k, v) :: tail)

mutual

/-- `valueParser.parseValue`.  `remainingDepth` is the struct budget `d`;
`fuel` bounds the total nesting and shrinks at every nested parse call. -/
def parseValue (p : VParser) (fuel : Nat) (rawTyp : DwarfType)
    (val : List Nat) (d : Int) : Option Value :=
  match fuel with
  | 0 => none
  | fuel + 1 =>
    match rawTyp with
    | .int sz =>
      match sz with
      | 1 => do
        let b ← val.get? 0
        some (.intV rawTyp 1 (toSigned 8 b))
      | 2 => do
        let u ← leUint16 val
        some (.intV rawTyp 2 (toSigned 16 u))
      | 4 => do
        let u ← leUint32 val
        some (.intV rawTyp 4 (toSigned 32 u))
      | 8 => do
        let u ← leUint64 val
        some (.intV rawTyp 8 (toSigned 64 u))
      | _ => some (.voidV rawTyp val)
    | .uint sz =>
      match sz with
      | 1 => do
        let b ← val.get? 0
        some (.uintV rawTyp 1 b)
      | 2 => do
        let u ← leUint16 val
        some (.uintV rawTyp 2 u)
      | 4 => do
        let u ← leUint32 val
        some (.uintV rawTyp 4 u)
      | 8 => do
        let u ← leUint64 val
        some (.uintV rawTyp 8 u)
      | _ => some (.voidV rawTyp val)
    | .float sz =>
      match sz with
      | 4 => do
        let u ← leUint32 val
        some (.floatV rawTyp 4 (float32FromBits u))
      | 8 => do
        let u ← leUint64 val
        some (.floatV rawTyp 8 (float64FromBits u))
      | _ => some (.voidV rawTyp val)
    | .complex sz =>
      match sz with
      | 8 => do
        let ru ← leUint32 val
        let iu ← leUint32 (val.drop 4)
        some (.complexV rawTyp 8 (float32FromBits ru) (float32FromBits iu))
      | 16 => do
        let ru ← leUint64 val
        let iu ← leUint64 (val.drop 8)
        some (.complexV rawTyp 16 (float64FromBits ru) (float64FromBits iu))
      | _ => some (.voidV rawTyp val)
    | .bool _ => do
      let b ← val.get? 0
      some (.boolV rawTyp (b == 1))
    | .ptr _ elem => do
      let addr ← leUint64 val
      if addr = 0 then some (.ptrV rawTyp 0 none)
      else
        match elem with
        | .void _ => some (.ptrV rawTyp addr none)
        | _ =>
          if elem.size < 0 then none
          else
            match p.read addr elem.size.toNat with
            | none => some (.ptrV rawTyp addr none)
            | some buff => do
              let pv ← parseValue p fuel elem buff d
              some (.ptrV rawTyp addr (some pv))
    | .func _ => do
      let addr ← leUint64 val
      some (.funcV rawTyp addr)
    | .strukt name _ _ =>
      if name == "string" then parseStringValue p fuel rawTyp val
      else if hasStrPre name "[]" then parseSliceValue p fuel rawTyp val d
      else if name == "runtime.iface" then parseInterfaceValue p fuel rawTyp val d
      else if name == "runtime.eface" then parseEmptyInterfaceValue p fuel rawTyp val d
      else parseStructValue p fuel rawTyp val d
    | .array count elem =>
      if count = -1 then some (.voidV rawTyp val)
      else do
        let es ← parseArrayElems p fuel elem val elem.size count.toNat 0 d
        some (.arrayV rawTyp es)
    | .typedef _ u =>
      -- The map dispatch (`parseMapValue` for typedefs whose name starts
      -- with "map[") is commented out in the source; a typedef parses as
      -- its underlying type without decrementing `remainingDepth`.
      parseValue p fuel u val d
    | .void _ => some (.voidV rawTyp val)

termination_by structural fuel

/-- `valueParser.parseStringValue`: 16-byte header `{data, len}`; a failed
memory read is rendered as the empty string. -/
def parseStringValue (p : VParser) (fuel : Nat) (typ : DwarfType)
    (val : List Nat) : Option Value :=
  match fuel with
  | 0 => none
  | _ + 1 => do
    let addr ← leUint64 val
    let lenU ← leUint64 (val.drop 8)
    let lenI := toSigned 64 lenU
    if lenI < 0 then none
    else
      match p.read addr lenI.toNat with
      | none => some (.stringV typ [])
      | some buff => some (.stringV typ buff)

/-- `valueParser.parseSliceValue`: the header is parsed as a struct with
budget `remainingDepth + 1` (the slice wrapper does not consume budget);
elements after the first live at `array + i * element_size`. -/
def parseSliceValue (p : VParser) (fuel : Nat) (typ : DwarfType)
    (val : List Nat) (d : Int) : Option Value :=
  match fuel with
  | 0 => none
  | fuel + 1 => do
    let sv ← parseStructValue p fuel typ val (d + 1)
    let flds ← asStructFields sv
    let lenV ← lookupGoMap flds "len"
    let lenI ← match lenV with | .intV _ 8 v => some v | _ => none
    if lenI = 0 then some (.sliceV typ [])
    else do
      let arrV ← lookupGoMap flds "array"
      match arrV with
      | .ptrV ptyp addr pointed =>
        if lenI ≤ 1 then some (.sliceV typ [pointed])
        else
          match pointed with
          | none => none
          | some pv => do
            let rest ← parseSliceElems p fuel ptyp addr pv.size 1 (lenI - 1).toNat d
            some (.sliceV typ (pointed :: rest))
      | _ => none

termination_by structural fuel

/-- The element loop of `parseSliceValue`: element `i` is re-read through a
synthetic pointer at `array + uint64(element_size) * uint64(i)`, parsed
with the same budget `d` as the header. -/
def parseSliceElems (p : VParser) (fuel : Nat) (ptyp : DwarfType)
    (addr : Nat) (esz : Int) (i : Nat) (count : Nat) (d : Int) :
    Option (List (Option Value)) :=
  match fuel with
  | 0 => none
  | fuel + 1 =>
    match count with
    | 0 => some []
    | c + 1 => do
      let a := wrap64 (addr + wrap64 (u64ofInt esz * i))
      let v ← parseValue p fuel ptyp (leBytes8 a) d
      match v with
      | .ptrV _ _ pointed => do
        let rest ← parseSliceElems p fuel ptyp addr esz (i + 1) c d
        some (pointed :: rest)
      | _ => none

termination_by structural fuel

/-- `valueParser.parseInterfaceValue` (`runtime.iface`): the wrapper struct
is parsed with the fixed budget 2; the concrete value is parsed with the
caller's budget `d`. -/
def parseInterfaceValue (p : VParser) (fuel : Nat) (typ : DwarfType)
    (val : List Nat) (d : Int) : Option Value :=
  match fuel with
  | 0 => none
  | fuel + 1 => do
    let sv ← parseStructValue p fuel typ val 2
    let flds ← asStructFields sv
    let tab ← lookupGoMap flds "tab"
    match tab with
    | .ptrV _ _ pointed =>
      match pointed with
      | none => some (.ifaceV typ none none false)
      | some tabV =>
        match p.mapRuntimeType with
        | none => some (.ifaceV typ none none true)
        | some resolver => do
          let tabFlds ← asStructFields tabV
          let tptr ← lookupGoMap tabFlds "_type"
          match tptr with
          | .ptrV _ rAddr _ =>
            match resolver rAddr with
            | none => some (.ifaceV typ none none false)
            | some implType => do
              let dataV ← lookupGoMap flds "data"
              match dataV with
              | .ptrV _ dAddr _ =>
                match implType with
                | .ptr _ _ => do
                  let iv ← parseValue p fuel implType (leBytes8 dAddr) d
                  some (.ifaceV typ (some implType) (some iv) false)
                | _ =>
                  if implType.size < 0 then none
                  else
                    match p.read dAddr implType.size.toNat with
                    | none => some (.ifaceV typ none none false)
                    | some dataBuff => do
                      let iv ← parseValue p fuel implType dataBuff d
                      some (.ifaceV typ (some implType) (some iv) false)
              | _ => none
          | _ => none
    | _ => none

termination_by structural fuel

/-- `valueParser.parseEmptyInterfaceValue` (`runtime.eface`): the wrapper
struct is parsed with the fixed budget 1. -/
def parseEmptyInterfaceValue (p : VParser) (fuel : Nat) (typ : DwarfType)
    (val : List Nat) (d : Int) : Option Value :=
  match fuel with
  | 0 => none
  | fuel + 1 => do
    let sv ← parseStructValue p fuel typ val 1
    let flds ← asStructFields sv
    let dataV ← lookupGoMap flds "data"
    match dataV with
    | .ptrV _ dAddr _ =>
      if dAddr = 0 then some (.ifaceV typ none none false)
      else
        match p.mapRuntimeType with
        | none => some (.ifaceV typ none none true)
        | some resolver => do
          let tptr ← lookupGoMap flds "_type"
          match tptr with
          | .ptrV _ rAddr _ =>
            match resolver rAddr with
            | none => some (.ifaceV typ none none false)
            | some implType =>
              match implType with
              | .ptr _ _ => do
                let iv ← parseValue p fuel implType (leBytes8 dAddr) d
                some (.ifaceV typ (some implType) (some iv) false)
              | _ =>
                if implType.size < 0 then none
                else
                  match p.read dAddr implType.size.toNat with
                  | none => some (.ifaceV typ none none false)
                  | some dataBuff => do
                    let iv ← parseValue p fuel implType dataBuff d
                    some (.ifaceV typ (some implType) (some iv) false)
          | _ => none
    | _ => none

termination_by structural fuel

/-- `valueParser.parseStructValue`: abbreviated when the budget is
exhausted; otherwise each field is parsed with budget `remainingDepth - 1`
from its byte window. -/
def parseStructValue (p : VParser) (fuel : Nat) (typ : DwarfType)
    (val : List Nat) (d : Int) : Option Value :=
  match fuel with
  | 0 => none
  | fuel + 1 =>
    if d ≤ 0 then some (.structV typ [] true)
    else
      match typ with
      | .strukt _ _ flds => do
        let fs ← parseStructFields p fuel flds val d
        some (.structV typ fs false)
      | _ => none

termination_by structural fuel

/-- The field loop of `parseStructValue`: field bytes are
`val[offset : offset + size]`, parsed with budget `d - 1`. -/
def parseStructFields (p : VParser) (fuel : Nat)
    (flds : List (String × Int × DwarfType)) (val : List Nat) (d : Int) :
    Option (List (String × Value)) :=
  match fuel with
  | 0 => none
  | fuel + 1 =>
    match flds with
    | [] => some []
    | (name, off, fty) :: rest => do
      let bytes ← goSlice val off (off + fty.size)
      let v ← parseValue p fuel fty bytes (d - 1)
      let tail ← parseStructFields p fuel rest val d
      some ((name, v) :: tail)

termination_by structural fuel

/-- `valueParser.parseMapValue` (not reachable from `parseValue`, whose map
dispatch is commented out): dereference the `*hmap`, read `B`, and walk
`2 ^ B` buckets. -/
def parseMapValue (p : VParser) (fuel : Nat) (typ : DwarfType)
    (val : List Nat) (d : Int) : Option Value :=
  match fuel with
  | 0 => none
  | fuel + 1 => do
    let u ← match typ with | .typedef _ u => some u | _ => none
    let pv ← parseValue p fuel u val (d + 2)
    match pv with
    | .ptrV _ _ pointed =>
      match pointed with
      | none => some (.mapV typ [])
      | some hv => do
        let hflds ← asStructFields hv
        let bV ← lookupGoMap hflds "B"
        let b ← match bV with | .uintV _ 1 x => some x | _ => none
        let pb ← lookupGoMap hflds "buckets"
        let ob ← lookupGoMap hflds "oldbuckets"
        match pb, ob with
        | .ptrV _ _ _, .ptrV _ _ _ => do
          let entries ← parseMapBuckets p fuel pb (2 ^ b) d
          some (.mapV typ entries)
        | _, _ => none
    | _ => none

/-- The bucket loop of `parseMapValue`: exactly `count = 2 ^ B` buckets are
visited; bucket `i + 1` sits immediately after bucket `i` in memory and is
re-read through a synthetic pointer with budget `d + 1`. -/
def parseMapBuckets (p : VParser) (fuel : Nat) (ptrToBuckets : Value)
    (count : Nat) (d : Int) : Option (List (Value × Value)) :=
  match fuel with
  | 0 => none
  | fuel + 1 =>
    match count with
    | 0 => some []
    | 1 => parseBucket p fuel ptrToBuckets d
    | c + 2 => do
      let vals ← parseBucket p fuel ptrToBuckets d
      match ptrToBuckets with
      | .ptrV pt paddr pointed => do
        let bstr ← pointed
        let bflds ← asStructFields bstr
        let _ := bflds
        let next := wrap64 (paddr + u64ofInt bstr.size)
        let nxt ← parseValue p fuel pt (leBytes8 next) (d + 1)
        match nxt with
        | .ptrV _ _ _ => do
          let rest ← parseMapBuckets p fuel nxt (c + 1) d
          some (vals ++ rest)
        | _ => none
      | _ => none

termination_by structural fuel

/-- `valueParser.parseBucket`: a null bucket pointer yields nothing; live
slots are the nonzero `tophash` entries; a nonzero `overflow` pointer is
followed and its entries appended. -/
def parseBucket (p : VParser) (fuel : Nat) (ptrToBucket : Value) (d : Int) :
    Option (List (Value × Value)) :=
  match fuel with
  | 0 => none
  | fuel + 1 =>
    match ptrToBucket with
    | .ptrV pt addr pointed =>
      if addr = 0 then some []
      else do
        let bv ← pointed
        let bflds ← asStructFields bv
        let th ← lookupGoMap bflds "tophash"
        let thElems ← match th with | .arrayV _ es => some es | _ => none
        let ks ← lookupGoMap bflds "keys"
        let kElems ← match ks with | .arrayV _ es => some es | _ => none
        let vs ← lookupGoMap bflds "values"
        let vElems ← match vs with | .arrayV _ es => some es | _ => none
        let own ← bucketEntries thElems kElems vElems 0
        let ov ← lookupGoMap bflds "overflow"
        match ov with
        | .ptrV _ oaddr _ =>
          if oaddr = 0 then some own
          else do
            let nxt ← parseValue p fuel pt (leBytes8 oaddr) (d + 1)
            let rest ← parseBucket p fuel nxt d
            some (own ++ rest)
        | _ => none
    | _ => none

termination_by structural fuel

/-- The element loop of the array case of `parseValue`: element `i` is the
byte window `val[i*stride : (i+1)*stride]`, parsed with the same budget. -/
def parseArrayElems (p : VParser) (fuel : Nat) (elem : DwarfType)
    (val : List Nat) (stride : Int) (count : Nat) (i : Nat) (d : Int) :
    Option (List Value) :=
  match fuel with
  | 0 => none
  | fuel + 1 =>
    match count with
    | 0 => some []
    | c + 1 => do
      let bytes ← goSlice val ((i : Int) * stride) (((i : Int) + 1) * stride)
      let v ← parseValue p fuel elem bytes d
      let rest ← parseArrayElems p fuel elem val stride c (i + 1) d
      some (v :: rest)

termination_by structural fuel

end

/-! ## DWARF location expressions (`src/tracee/binary.go`)

`parameterOffset` reads a location expression: the `call_frame_cfa` opcode
(`0x9c`) gives offset 0, `fbreg` (`0x91`) is followed by a signed LEB128
offset, anything else is an unsupported operation (an error, which
`offsetWithLocationDesc` turns into `Exist = false`). -/

/-- `dwarfOpCallFrameCFA`. -/
def dwarfOpCallFrameCFA : Nat := 0x9c

/-- `dwarfOpFbreg`. -/
def dwarfOpFbreg : Nat := 0x91

/-- The loop of `decodeSignedLEB128`: `i` is the byte index, `val` the
64-bit bit pattern of Go's `int` accumulator (`int` is 64-bit on the
targeted amd64 platforms, so every shift truncates modulo `2 ^ 64`, and
`(^0) << s` is the all-ones pattern shifted, added with wraparound).
Running past the end of the input is a Go panic (`none`); the returned
`Int` is the signed reading of the final pattern. -/
def decodeSignedLEB128Loop : List Nat → Nat → Nat → Option Int
  | [], _, _ => none
  | b :: rest, i, val =>
    let val := val ||| ((b &&& 0x7F) <<< (7 * i) % 2 ^ 64)
    if b >>> 7 &&& 1 = 0 then
      if b >>> 6 &&& 1 = 1 then
        some (toSigned 64 (((2 ^ 64 - 1) <<< ((i + 1) * 7) % 2 ^ 64 + val) % 2 ^ 64))
      else some (toSigned 64 val)
    else decodeSignedLEB128Loop rest (i + 1) val

/-- `decodeSignedLEB128` (binary.go): decodes the signed LEB128 prefix of
`input` in a wrapping 64-bit `int`. -/
def decodeSignedLEB128 (input : List Nat) : Option Int :=
  decodeSignedLEB128Loop input 0 0

/-- Reduction of an unbounded integer into Go's two's-complement 64-bit
`int`. -/
def wrapInt64 (v : Int) : Int := toSigned 64 ((v % (2 ^ 64 : Int)).toNat)

/-- The signed LEB128 format, written as its standard base-128
little-endian recursion: a byte below `0x80` terminates and contributes its
low 7 bits, sign-extended from bit 6; a byte with the continuation bit set
contributes its low 7 bits below the value of the rest.  This is the
specification `decodeSignedLEB128` is checked against. -/
def slebValue : List Nat → Option Int
  | [] => none
  | b :: rest =>
    if b < 128 then some (if 64 ≤ b then (b : Int) - 128 else (b : Int))
    else (slebValue rest).map fun v => ((b : Int) - 128) + 128 * v

/-- Result of `parameterOffset`: success, an error return (`unknown
operation` / empty description), or a panic inside the LEB decoder. -/
inductive ParamOffset where
  | ok (offset : Int)
  | err
  | crash
deriving DecidableEq

/-- `parameterOffset` (binary.go). -/
def parameterOffset : List Nat → ParamOffset
  | [] => .err
  | b :: rest =>
    if b = dwarfOpCallFrameCFA then .ok 0
    else if b = dwarfOpFbreg then
      match decodeSignedLEB128 rest with
      | some v => .ok v
      | none => .crash
    else .err

/-- `subprogramReader.offsetWithLocationDesc`, given the location
description bytes: an empty description means the parameter was optimized
away (`Exist = false`); otherwise the offset and `err == nil` of
`parameterOffset` become `(Offset, Exist)`. -/
def offsetWithLocationDesc (loc : List Nat) : Option (Int × Bool) :=
  if loc.length = 0 then some (0, false)
  else
    match parameterOffset loc with
    | .ok off => some (off, true)
    | .err => some (0, false)
    | .crash => none

/-! ## Register payload hex coding (`src/debugapi/client_darwin.go`) -/

/-- Split into adjacent pairs (dropping a trailing odd element). -/
def chunkPairs : List Char → List (Char × Char)
  | a :: b :: rest => (a, b) :: chunkPairs rest
  | _ => []

/-- Flatten a pair list back to a character list. -/
def flatPairs : List (Char × Char) → List Char
  | [] => []
  | (a, b) :: rest => a :: b :: flatPairs rest

/-- The byte-pair reversal loop shared by `hexToUint64` and `uint64ToHex`
(`for i := len(hex) - 2; i >= 0; i -= 2`).  On the even-length inputs of
every call site this is the reversal of the two-character chunks. -/
def revPairs (l : List Char) : List Char :=
  flatPairs (chunkPairs l).reverse

/-- The value of a hexadecimal digit character (either case), as accepted
by `strconv.ParseUint(_, 16, 64)`. -/
def hexCharVal (c : Char) : Option Nat :=
  if '0' ≤ c ∧ c ≤ '9' then some (c.toNat - 48)
  else if 'a' ≤ c ∧ c ≤ 'f' then some (c.toNat - 87)
  else if 'A' ≤ c ∧ c ≤ 'F' then some (c.toNat - 55)
  else none

/-- `strconv.ParseUint(s, 16, 64)`: fails on an empty string, a non-digit,
or a value outside 64 bits. -/
def parseUintHex64 (l : List Char) : Option Nat :=
  if l.isEmpty then none
  else do
    let v ← l.foldlM (fun acc c => (hexCharVal c).map fun d => acc * 16 + d) 0
    if v < 2 ^ 64 then some v else none

/-- `hexToUint64` (client_darwin.go). -/
def hexToUint64 (hex : List Char) (littleEndian : Bool) : Option Nat :=
  parseUintHex64 (if littleEndian then revPairs hex else hex)

/-- `uint64ToHex` (client_darwin.go): `%016x`, then the same pair
reversal. -/
def uint64ToHex (input : Nat) (littleEndian : Bool) : List Char :=
  let hex := padLeft '0' 16 (natHexDigits input)
  if littleEndian then revPairs hex else hex

/-- A `qRegisterInfo`-derived register descriptor (name, byte offset and
byte size inside the `g` payload). -/
structure RegisterMetadata where
  name : String
  offset : Nat
  size : Nat

/-- The registers the client extracts (`debugapi.Registers`). -/
structure Registers where
  rip : Nat
  rsp : Nat
  rcx : Nat
deriving DecidableEq

/-- Go string slicing `s[lo:hi]` on a character list. -/
def sliceChars (data : List Char) (lo hi : Nat) : Option (List Char) :=
  if lo ≤ hi ∧ hi ≤ data.length then some ((data.take hi).drop lo) else none

/-- One step of `parseRegisterData`: slice the register's window (a panic
if out of bounds) and, for `rip`/`rsp`/`rcp`-named entries, decode it as a
little-endian hex value. -/
def parseRegisterStep (data : List Char) (regs : Registers)
    (m : RegisterMetadata) : Option Registers := do
  let rawValue ← sliceChars data (m.offset * 2) ((m.offset + m.size) * 2)
  if m.name = "rip" then do
    let v ← hexToUint64 rawValue true
    some { regs with rip := v }
  else if m.name = "rsp" then do
    let v ← hexToUint64 rawValue true
    some { regs with rsp := v }
  else if m.name = "rcx" then do
    let v ← hexToUint64 rawValue true
    some { regs with rcx := v }
  else some regs

/-- `Client.parseRegisterData`. -/
def parseRegisterData (ms : List RegisterMetadata) (data : List Char) :
    Option Registers :=
  ms.foldlM (parseRegisterStep data) ⟨0, 0, 0⟩

/-- One step of the `WriteRegisters` payload construction: take the prefix
and suffix around the register's window (panics if out of bounds) and, for
the three named registers, splice in the little-endian hex of the value
being written. -/
def writeRegisterStep (regs : Registers) (data : List Char)
    (m : RegisterMetadata) : Option (List Char) := do
  let prefx ← sliceChars data 0 (m.offset * 2)
  let suffix ← sliceChars data ((m.offset + m.size) * 2) data.length
  if m.name = "rip" then some (prefx ++ uint64ToHex regs.rip true ++ suffix)
  else if m.name = "rsp" then some (prefx ++ uint64ToHex regs.rsp true ++ suffix)
  else if m.name = "rcx" then some (prefx ++ uint64ToHex regs.rcx true ++ suffix)
  else some data

/-- The payload `Client.WriteRegisters` sends in its `G` packet, built by
splicing each named register's value into the freshly read register data.
-/
def buildWriteRegData (ms : List RegisterMetadata) (data : List Char)
    (regs : Registers) : Option (List Char) :=
  ms.foldlM (writeRegisterStep regs) data

/-! ## Events, step/continue commands and the stop-reply handler -/

/-- `debugapi.Event`. -/
inductive Event where
  | trapped (threadIDs : List Nat)
  | exited (status : Nat)
  | terminated (signal : Nat)
deriving DecidableEq

/-- Result of `Client.StepAndWait` after its `wait` returned an event. -/
inductive StepResult where
  | ok (e : Event)
  | errUnexpectedEvent (e : Event)
  | errUnspecifiedThread (threadIDs : List Nat)
deriving DecidableEq

/-- The `vCont` command `Client.StepAndWait` sends: plain step when no
signal is pending, signal-delivering step otherwise. -/
def stepCommand (pendingSignal : Nat) (threadID : Nat) : String :=
  if pendingSignal = 0 then "vCont;s:" ++ fmtHex threadID
  else "vCont;S" ++ fmtHex02 pendingSignal ++ ":" ++ fmtHex threadID

/-- The `vCont` command `Client.continueAndWait` sends. -/
def continueCommand (signalNumber : Nat) : String :=
  if signalNumber = 0 then "vCont;c"
  else "vCont;C" ++ fmtHex02 signalNumber

/-- The event checks of `Client.StepAndWait`: a non-trap event is an
error; a trap whose thread list is not exactly the stepped thread is
`UnspecifiedThreadError` carrying the stopped thread ids. -/
def stepAndWaitCheck (threadID : Nat) (e : Event) : StepResult :=
  match e with
  | .trapped ids =>
    if ids.length ≠ 1 ∨ ids.head? ≠ some threadID then .errUnspecifiedThread ids
    else .ok (.trapped ids)
  | e => .errUnexpectedEvent e

/-- `unix.SIGTRAP` on darwin. -/
def sigTrapNum : Nat := 5

/-- `excBadAccess` (`EXC_BAD_ACCESS`, `0x91`). -/
def excBadAccessNum : Nat := 0x91

/-- `strings.Split` on a one-character separator. -/
def splitChar (sep : Char) : List Char → List (List Char)
  | [] => [[]]
  | c :: rest =>
    match splitChar sep rest with
    | g :: gs => if c = sep then [] :: g :: gs else (c :: g) :: gs
    | [] => [[]]

/-- The key/value loop of `handleTPacket` over the `;`-separated chunks:
a chunk without `:` panics (`kvArr[1]`); every `threads` key contributes
its comma-separated hex thread ids. -/
def collectThreadIDs : List (List Char) → Option (List Nat)
  | [] => some []
  | chunk :: rest => do
    let kv := splitChar ':' chunk
    let key ← kv.get? 0
    let value ← kv.get? 1
    let tail ← collectThreadIDs rest
    if String.mk key = "threads" then do
      let ids ← (splitChar ',' value).mapM fun t => hexToUint64 t false
      some (ids ++ tail)
    else some tail

/-- `Client.selectTrappedThreads`: keep the threads whose
`qThreadStopInfo` reply (supplied by the oracle; `none` is a transport or
`E`-response error) reports signal `SIGTRAP`. -/
def selectTrappedThreads (stopInfo : Nat → Option (List Char)) :
    List Nat → Option (List Nat)
  | [] => some []
  | tid :: rest => do
    let data ← stopInfo tid
    let sigChars ← sliceChars data 1 3
    let sig ← hexToUint64 sigChars false
    let tail ← selectTrappedThreads stopInfo rest
    if sig = sigTrapNum then some (tid :: tail) else some tail

/-- Outcome of `Client.handleTPacket`. -/
inductive TPacketOutcome where
  | fail
  | resume (signal : Nat)
  | trappedEvent (threadIDs : List Nat) (pendingSignal : Nat)
deriving DecidableEq

/-- `Client.handleTPacket`: parse the stop signal from `packet[1:3]`,
reject `EXC_BAD_ACCESS`, collect the `threads` ids from
`packet[3:len-1]`, select the SIGTRAP-stopped subset; with no trapped
thread re-deliver the stop signal via `continueAndWait`; otherwise record
the pending signal (0 for SIGTRAP, the signal itself otherwise) and
produce the trapped event. -/
def handleTPacket (packet : List Char) (stopInfo : Nat → Option (List Char)) :
    TPacketOutcome :=
  match sliceChars packet 1 3 with
  | none => .fail
  | some sigChars =>
    match hexToUint64 sigChars false with
    | none => .fail
    | some sig =>
      if sig = excBadAccessNum then .fail
      else
        match sliceChars packet 3 (packet.length - 1) with
        | none => .fail
        | some body =>
          match collectThreadIDs (splitChar ';' body) with
          | none => .fail
          | some tids =>
            match selectTrappedThreads stopInfo tids with
            | none => .fail
            | some trapped =>
              if trapped.length = 0 then .resume sig
              else .trappedEvent trapped (if sig ≠ sigTrapNum then sig else 0)

/-! ## The TLS-read routine -/

/-- `Client.buildReadTLSFunction`: the 9-byte stub
`mov rcx, gs:[offset]`. -/
def buildReadTLSFunction (offset : Nat) : List Nat :=
  [0x65, 0x48, 0x8b, 0x0c, 0x25] ++ leBytes4 offset

/-- The client and remote state `ReadTLS` touches: the per-thread register
files, the stub region contents, and the offset currently compiled into
the stub. -/
structure TLSClient where
  regs : Nat → Registers
  currentTLSOffset : Nat
  readTLSFuncAddr : Nat
  stub : List Nat

/-- Environment for one `ReadTLS` call: success of each remote operation
and the effect of the single step on the stepped thread's registers. -/
structure TLSEnv where
  writeMemOk : Bool
  readRegs1Ok : Bool
  writeModOk : Bool
  stepOk : Bool
  readRegs2Ok : Bool
  writeRestoreOk : Bool
  stepEffect : Registers → Registers

/-- Trace of one `ReadTLS` call: its return value (`none` for an error
return), the final state, the number of stub `WriteMemory` commands
issued, and the register writes attempted on the thread, in order. -/
structure TLSResult where
  ret : Option Nat
  client : TLSClient
  stubWrites : Nat
  regWrites : List Registers

/-- `Client.updateReadTLSFunction`: rewrite the stub only when the
requested offset differs from the one currently installed. -/
def updateReadTLSFunction (c : TLSClient) (env : TLSEnv) (offset : Nat) :
    TLSClient × Nat × Bool :=
  if c.currentTLSOffset = offset then (c, 0, true)
  else if env.writeMemOk then
    ({ c with stub := buildReadTLSFunction offset, currentTLSOffset := offset },
      1, true)
  else (c, 1, false)

/-- Overwrite one thread's register file. -/
def TLSClient.setRegs (c : TLSClient) (tid : Nat) (r : Registers) : TLSClient :=
  { c with regs := fun t => if t = tid then r else c.regs t }

/-- `Client.ReadTLS`: update the stub, snapshot the registers, point the
PC at the stub, single-step, read `rcx`, and restore the snapshot (the
restore is deferred, so it runs on every path after the snapshot was
taken). -/
def readTLS (c : TLSClient) (env : TLSEnv) (threadID : Nat) (offset : Int) :
    TLSResult :=
  let uoff := (offset % (2 ^ 32 : Int)).toNat
  let upd := updateReadTLSFunction c env uoff
  if !upd.2.2 then ⟨none, upd.1, upd.2.1, []⟩
  else
    let c1 := upd.1
    if !env.readRegs1Ok then ⟨none, c1, upd.2.1, []⟩
    else
      let originalRegs := c1.regs threadID
      let modifiedRegs := { originalRegs with rip := c1.readTLSFuncAddr }
      if !env.writeModOk then
        -- the failed write changes nothing; the deferred restore still runs
        let c3 := if env.writeRestoreOk then c1.setRegs threadID originalRegs else c1
        ⟨none, c3, upd.2.1, [modifiedRegs, originalRegs]⟩
      else
        let c2 := c1.setRegs threadID modifiedRegs
        let c2s := c2.setRegs threadID (env.stepEffect (c2.regs threadID))
        if !env.stepOk then
          let c3 := if env.writeRestoreOk then c2s.setRegs threadID originalRegs else c2s
          ⟨none, c3, upd.2.1, [modifiedRegs, originalRegs]⟩
        else if !env.readRegs2Ok then
          let c3 := if env.writeRestoreOk then c2s.setRegs threadID originalRegs else c2s
          ⟨none, c3, upd.2.1, [modifiedRegs, originalRegs]⟩
        else
          let rcxVal := (c2s.regs threadID).rcx
          let c3 := if env.writeRestoreOk then c2s.setRegs threadID originalRegs else c2s
          ⟨some rcxVal, c3, upd.2.1, [modifiedRegs, originalRegs]⟩

/-! ## Service layer and trace-point bookkeeping -/

/-- Modelled from the spec: the tracer controller (`tracer.Controller`) —
its source file is not part of this repository snapshot; only its tests
(`src/tracer/controller_test.go`) and the service wrapper
(`src/service/service.go`) are.  Per the spec, the controller holds the
start/end trace-point sets and a breakpoint table, trace points may be
added at any time, and pending points are installed by
`setPendingTracePoints` when the inferior first stops after launch. -/
structure ControllerModel where
  startTracePoints : List Nat
  endTracePoints : List Nat
  breakpoints : List Nat

/-- Modelled from the spec: `Controller.AddStartTracePoint` records the
address; installation happens at the next stop. -/
def ControllerModel.addStartTracePoint (c : ControllerModel) (addr : Nat) :
    ControllerModel :=
  { c with startTracePoints := c.startTracePoints ++ [addr] }

/-- Modelled from the spec: `Controller.AddEndTracePoint`. -/
def ControllerModel.addEndTracePoint (c : ControllerModel) (addr : Nat) :
    ControllerModel :=
  { c with endTracePoints := c.endTracePoints ++ [addr] }

/-- Modelled from the spec: `Controller.setPendingTracePoints` installs a
breakpoint at every recorded trace point; the controller calls it when the
inferior first stops after launch. -/
def ControllerModel.setPendingTracePoints (c : ControllerModel) :
    ControllerModel :=
  { c with breakpoints := c.breakpoints ++ c.startTracePoints ++ c.endTracePoints }

/-- `Breakpoints.Exist` on the model. -/
def ControllerModel.breakpointExists (c : ControllerModel) (addr : Nat) : Bool :=
  c.breakpoints.contains addr

/-- The fresh controller `service.Tracer.Attach` creates. -/
def newControllerModel : ControllerModel := ⟨[], [], []⟩

/-- `service.Tracer.AddStartTracePoint`: with no attached controller the
call succeeds but the address is dropped (`if t.controller == nil
{ return nil }`). -/
def serviceAddStartTracePoint (s : Option ControllerModel) (addr : Nat) :
    Option ControllerModel :=
  match s with
  | none => none
  | some c => some (c.addStartTracePoint addr)

/-- `service.Tracer.AddEndTracePoint`. -/
def serviceAddEndTracePoint (s : Option ControllerModel) (addr : Nat) :
    Option ControllerModel :=
  match s with
  | none => none
  | some c => some (c.addEndTracePoint addr)

/-- `service.Tracer.Attach`: creates a fresh controller and records the
initial start trace point; a second attach is an error and changes
nothing. -/
def serviceAttach (s : Option ControllerModel) (initialStart : Nat) :
    Option ControllerModel :=
  match s with
  | some c => some c
  | none => some (newControllerModel.addStartTracePoint initialStart)

/-! ## Theorems -/

/-- Bits accumulated below position `k` and bits shifted to `k` combine by
addition. -/
theorem lor_shiftLeft_eq_add (a c k : Nat) (h : a < 2 ^ k) :
    a ||| (c <<< k) = a + c * 2 ^ k := by
  rw [Nat.shiftLeft_eq, Nat.lor_comm, ← Nat.mul_comm (2 ^ k) c,
    ← Nat.mul_add_lt_is_or h, Nat.add_comm]

/-- Bits accumulated below position `k` and bits shifted to `k` combine by
addition, also under 64-bit truncation of the shifted part. -/
theorem lor_shiftLeft_mod64_eq_add (P c k : Nat) (h : P < 2 ^ k) :
    P % 2 ^ 64 ||| (c <<< k % 2 ^ 64) = (P + c * 2 ^ k) % 2 ^ 64 := by
  rw [Nat.shiftLeft_eq]
  by_cases hk : k < 64
  · have hsplit : (2 : Nat) ^ 64 = 2 ^ (64 - k) * 2 ^ k := by
      rw [← pow_add]
      congr 1
      omega
    have hP64 : P % 2 ^ 64 = P := by
      apply Nat.mod_eq_of_lt
      calc P < 2 ^ k := h
      _ ≤ 2 ^ 64 := Nat.pow_le_pow_right (by omega) (by omega)
    have hcmod : c * 2 ^ k % 2 ^ 64 = c % 2 ^ (64 - k) * 2 ^ k := by
      rw [hsplit, Nat.mul_mod_mul_right]
    have hlor : P ||| (c % 2 ^ (64 - k) * 2 ^ k) = P + c % 2 ^ (64 - k) * 2 ^ k := by
      have h2 := lor_shiftLeft_eq_add P (c % 2 ^ (64 - k)) k h
      rw [Nat.shiftLeft_eq] at h2
      exact h2
    rw [hP64, hcmod, hlor]
    have hdecomp : c * 2 ^ k = c % 2 ^ (64 - k) * 2 ^ k + c / 2 ^ (64 - k) * 2 ^ 64 := by
      conv_lhs => rw [← Nat.div_add_mod c (2 ^ (64 - k))]
      rw [hsplit]
      ring
    have hone : (1 : Nat) ≤ 2 ^ (64 - k) := Nat.one_le_two_pow
    have hmlt : c % 2 ^ (64 - k) < 2 ^ (64 - k) := Nat.mod_lt _ (by omega)
    have hlt : P + c % 2 ^ (64 - k) * 2 ^ k < 2 ^ 64 := by
      have h2 : c % 2 ^ (64 - k) * 2 ^ k ≤ (2 ^ (64 - k) - 1) * 2 ^ k :=
        Nat.mul_le_mul_right _ (by omega)
      have h3 : (2 ^ (64 - k) - 1) * 2 ^ k + 2 ^ k = 2 ^ 64 := by
        rw [hsplit]
        zify [hone]
        ring
      omega
    rw [hdecomp, ← Nat.add_assoc, Nat.add_mul_mod_self_right,
      Nat.mod_eq_of_lt hlt]
  · obtain ⟨q, hq⟩ : (2 : Nat) ^ 64 ∣ 2 ^ k := pow_dvd_pow 2 (by omega)
    have h1 : c * 2 ^ k % 2 ^ 64 = 0 := by
      rw [hq, show c * (2 ^ 64 * q) = 2 ^ 64 * (c * q) by ring, Nat.mul_mod_right]
    rw [h1, Nat.or_zero, hq,
      show c * (2 ^ 64 * q) = c * q * 2 ^ 64 by ring,
      Nat.add_mul_mod_self_right]

/-- Go's negative adjustment `(^0) << s + val` in a wrapping 64-bit `int`
is subtraction of `2 ^ s` modulo `2 ^ 64`. -/
theorem signExtend_emod (s val : Nat) (hv : val < 2 ^ 64) :
    ((2 ^ 64 - 1) <<< s % 2 ^ 64 + val) % 2 ^ 64 =
      (((val : Int) - 2 ^ s) % 2 ^ 64).toNat := by
  rw [Nat.shiftLeft_eq]
  have hc : ((2 : Int) ^ s) = ((2 ^ s : Nat) : Int) := by push_cast; ring
  rw [hc]
  by_cases hs : s < 64
  · have hss : (2 : Nat) ^ s ≤ 2 ^ 64 := Nat.pow_le_pow_right (by omega) (by omega)
    have hone : (1 : Nat) ≤ 2 ^ s := Nat.one_le_two_pow
    have hone' : (1 : Nat) ≤ 2 ^ 64 := by norm_num
    have h1 : (2 ^ 64 - 1) * 2 ^ s % 2 ^ 64 = 2 ^ 64 - 2 ^ s := by
      have hdecomp : (2 ^ 64 - 1) * 2 ^ s = 2 ^ 64 * (2 ^ s - 1) + (2 ^ 64 - 2 ^ s) := by
        zify [hss, hone, hone']
        ring
      rw [hdecomp, Nat.mul_add_mod]
      exact Nat.mod_eq_of_lt (by omega)
    rw [h1]
    generalize (2 : Nat) ^ s = A at *
    omega
  · obtain ⟨q, hq⟩ : (2 : Nat) ^ 64 ∣ 2 ^ s := pow_dvd_pow 2 (by omega)
    have h1 : (2 ^ 64 - 1) * 2 ^ s % 2 ^ 64 = 0 := by
      rw [hq, show (2 ^ 64 - 1) * (2 ^ 64 * q) = 2 ^ 64 * ((2 ^ 64 - 1) * q) by ring,
        Nat.mul_mod_right]
    rw [h1, Nat.zero_add, Nat.mod_eq_of_lt hv, hq]
    push_cast
    omega

/-- The Go decode loop computes the standard base-128 recursion reduced
into a wrapping 64-bit `int`, for any start index and any accumulator
pattern that is a partial sum filling fewer than `7 * i` bits. -/
theorem decodeSignedLEB128Loop_eq (input : List Nat)
    (hb : ∀ b ∈ input, b < 256) :
    ∀ i P : Nat, P < 2 ^ (7 * i) →
      decodeSignedLEB128Loop input i (P % 2 ^ 64) =
        (slebValue input).map fun v =>
          toSigned 64 ((((P : Int) + 2 ^ (7 * i) * v) % 2 ^ 64).toNat) := by
  induction input with
  | nil => intro i P _; simp [decodeSignedLEB128Loop, slebValue]
  | cons b rest ih =>
    intro i P hP
    have hb256 : b < 256 := hb b (by simp)
    have hrest : ∀ x ∈ rest, x < 256 := fun x hx => hb x (by simp [hx])
    have hmask : b &&& 0x7F = b % 128 := by
      have := Nat.and_pow_two_sub_one_eq_mod b 7
      simpa using this
    have hval' : P % 2 ^ 64 ||| ((b &&& 0x7F) <<< (7 * i) % 2 ^ 64) =
        (P + b % 128 * 2 ^ (7 * i)) % 2 ^ 64 := by
      rw [hmask]
      exact lor_shiftLeft_mod64_eq_add P (b % 128) (7 * i) hP
    have hbit7 : b >>> 7 &&& 1 = b / 128 % 2 := by
      rw [Nat.shiftRight_eq_div_pow, Nat.and_one_is_mod]
    have hbit6 : b >>> 6 &&& 1 = b / 64 % 2 := by
      rw [Nat.shiftRight_eq_div_pow, Nat.and_one_is_mod]
    simp only [decodeSignedLEB128Loop, hval', hbit7, hbit6]
    by_cases hcont : b < 128
    · have h7 : b / 128 % 2 = 0 := by omega
      have hbmod : b % 128 = b := Nat.mod_eq_of_lt hcont
      have hsleb : slebValue (b :: rest) =
          some (if 64 ≤ b then (b : Int) - 128 else (b : Int)) := by
        simp [slebValue, hcont]
      rw [hsleb, h7, hbmod]
      by_cases hsign : 64 ≤ b
      · have h6 : b / 64 % 2 = 1 := by omega
        rw [h6, if_pos rfl, if_pos rfl, if_pos hsign]
        simp only [Option.map_some', Option.some.injEq]
        rw [signExtend_emod _ _ (Nat.mod_lt _ (by positivity))]
        congr 2
        have hX : ((P : Int) + 2 ^ (7 * i) * ((b : Int) - 128)) =
            ((P : Int) + (b : Int) * 2 ^ (7 * i)) - 2 ^ ((i + 1) * 7) := by
          rw [show ((i + 1) * 7) = 7 * i + 7 by ring, pow_add]
          ring
        rw [Int.natCast_mod]
        push_cast
        rw [hX]
        conv_rhs => rw [Int.sub_emod]
        conv_lhs => rw [Int.sub_emod]
        rw [Int.emod_emod_of_dvd _ dvd_rfl]
      · have h6 : b / 64 % 2 = 0 := by omega
        rw [h6, if_pos rfl, if_neg (by omega), if_neg hsign]
        simp only [Option.map_some', Option.some.injEq]
        congr 1
        have hm : ((P : Int) + 2 ^ (7 * i) * (b : Int)) =
            ((P + b * 2 ^ (7 * i) : Nat) : Int) := by
          push_cast
          ring
        rw [hm]
        generalize (P + b * 2 ^ (7 * i) : Nat) = m
        omega
    · have h7 : b / 128 % 2 = 1 := by omega
      have hval2 : P + b % 128 * 2 ^ (7 * i) < 2 ^ (7 * (i + 1)) := by
        have h1 : b % 128 < 128 := Nat.mod_lt _ (by omega)
        have h2 : b % 128 * 2 ^ (7 * i) ≤ 127 * 2 ^ (7 * i) :=
          Nat.mul_le_mul_right _ (by omega)
        have h3 : (2 : Nat) ^ (7 * (i + 1)) = 128 * 2 ^ (7 * i) := by
          rw [show 7 * (i + 1) = 7 + 7 * i by ring, pow_add]; norm_num
        omega
      rw [h7, if_neg (by omega)]
      rw [ih hrest (i + 1) _ hval2]
      have hsleb : slebValue (b :: rest) =
          (slebValue rest).map fun v => ((b : Int) - 128) + 128 * v := by
        simp [slebValue, hcont]
      rw [hsleb]
      cases hres : slebValue rest with
      | none => simp
      | some v =>
        simp only [Option.map_some', Option.some.injEq]
        congr 2
        have h3 : ((2 : Int) ^ (7 * (i + 1))) = 2 ^ (7 * i) * 128 := by
          rw [show 7 * (i + 1) = 7 * i + 7 by ring]
          push_cast [pow_add]
          ring
        rw [h3]
        have hcast : ((b % 128 : Nat) : Int) = (b : Int) - 128 := by omega
        push_cast
        push_cast at hcast
        rw [hcast]
        ring

/-- `decodeSignedLEB128` computes the signed LEB128 value of the input's
terminated prefix, reduced into a wrapping 64-bit `int`. -/
theorem decodeSignedLEB128_eq_sleb (input : List Nat)
    (hb : ∀ b ∈ input, b < 256) :
    decodeSignedLEB128 input = (slebValue input).map wrapInt64 := by
  have h := decodeSignedLEB128Loop_eq input hb 0 0 (by norm_num)
  rw [decodeSignedLEB128]
  norm_num at h
  rw [h]
  cases slebValue input <;> simp [wrapInt64]

/-- The 64-bit reduction is the identity on values that fit in `int64`. -/
theorem wrapInt64_eq_self (v : Int) (h1 : -(2 ^ 63) ≤ v) (h2 : v < 2 ^ 63) :
    wrapInt64 v = v := by
  unfold wrapInt64 toSigned
  split_ifs with h
  · omega
  · omega

/-- C6 counterexample: on the 10-byte encoding `0x80 ×9, 0x41` the Go
decoder's wrapping 64-bit arithmetic yields `-2^63`, not the signed
LEB128 value `-63 * 2^63` the claim asserts for an `fbreg` expression. -/
theorem C6_sleb128_wrap_counterexample :
    decodeSignedLEB128 (List.replicate 9 0x80 ++ [0x41]) = some (-(2 ^ 63)) ∧
    slebValue (List.replicate 9 0x80 ++ [0x41]) = some (-(63 * 2 ^ 63)) ∧
    offsetWithLocationDesc (dwarfOpFbreg :: (List.replicate 9 0x80 ++ [0x41])) =
      some (-(2 ^ 63), true) ∧
    (-(63 * 2 ^ 63) : Int) ≠ -(2 ^ 63) :=
  ⟨by decide, by decide, by decide, by decide⟩

/-- C6 (amended): a formal parameter's location expression yields
`(offset, present)` as follows — the single opcode `call_frame_cfa`
(0x9c) gives offset 0 and `present`; a leading `fbreg` (0x91) gives the
signed LEB128 value of the following bytes reduced into a wrapping 64-bit
`int` (the reduction is the identity whenever the value fits in `int64`,
in particular for every terminated encoding of at most 9 bytes) and
`present`; any other leading opcode, and the empty expression, give
`present = false`. -/
theorem C6_parameter_offset_wrapped (loc : List Nat)
    (hb : ∀ b ∈ loc, b < 256) :
    (loc = [dwarfOpCallFrameCFA] → offsetWithLocationDesc loc = some (0, true)) ∧
    (∀ rest v, loc = dwarfOpFbreg :: rest → slebValue rest = some v →
      offsetWithLocationDesc loc = some (wrapInt64 v, true)) ∧
    (∀ v : Int, -(2 ^ 63) ≤ v → v < 2 ^ 63 → wrapInt64 v = v) ∧
    (∀ b rest, loc = b :: rest → b ≠ dwarfOpCallFrameCFA → b ≠ dwarfOpFbreg →
      offsetWithLocationDesc loc = some (0, false)) ∧
    (loc = [] → offsetWithLocationDesc loc = some (0, false)) := by
  refine ⟨?_, ?_, wrapInt64_eq_self, ?_, ?_⟩
  · rintro rfl
    simp [offsetWithLocationDesc, parameterOffset]
  · rintro rest v rfl hsleb
    have hrest : ∀ b ∈ rest, b < 256 := fun b hx => hb b (by simp [hx])
    have hdec : decodeSignedLEB128 rest = some (wrapInt64 v) := by
      rw [decodeSignedLEB128_eq_sleb rest hrest, hsleb]
      rfl
    simp [offsetWithLocationDesc, parameterOffset, dwarfOpFbreg,
      dwarfOpCallFrameCFA, hdec]
  · rintro b rest rfl hcfa hfbreg
    simp [offsetWithLocationDesc, parameterOffset, hcfa, hfbreg]
  · rintro rfl
    simp [offsetWithLocationDesc]

/-- C6 at concrete expressions: `[0x9c]`, `[0x91, 0x7f]` (offset −1, with
the reduction evaluated to the identity), `[0x91, 0xc8, 0x00]`
(offset 72), an unsupported register opcode, and the empty expression. -/
theorem C6_parameter_offset_wrapped_witness :
    offsetWithLocationDesc [0x9c] = some (0, true) ∧
    offsetWithLocationDesc [0x91, 0x7f] = some (wrapInt64 (-1), true) ∧
    wrapInt64 (-1) = -1 ∧
    offsetWithLocationDesc [0x91, 0xc8, 0x00] = some (wrapInt64 72, true) ∧
    offsetWithLocationDesc [0x50] = some (0, false) ∧
    offsetWithLocationDesc [] = some (0, false) :=
  ⟨(C6_parameter_offset_wrapped [0x9c] (by decide)).1 rfl,
    (C6_parameter_offset_wrapped [0x91, 0x7f] (by decide)).2.1
      [0x7f] (-1) rfl (by decide),
    (C6_parameter_offset_wrapped [0x91, 0x7f] (by decide)).2.2.1
      (-1) (by norm_num) (by norm_num),
    (C6_parameter_offset_wrapped [0x91, 0xc8, 0x00] (by decide)).2.1
      [0xc8, 0x00] 72 rfl (by decide),
    (C6_parameter_offset_wrapped [0x50] (by decide)).2.2.2.1
      0x50 [] rfl (by decide) (by decide),
    (C6_parameter_offset_wrapped [] (by decide)).2.2.2.2 rfl⟩

/-- C7: a single-step request for thread `T` that stops on a different
thread set — a trap event whose thread-id list is not exactly `[T]` —
returns the `UnspecifiedThreadError` carrying the stopped ids; a step
yielding a non-trap event returns an error rather than the event. -/
theorem C7_step_unspecified_task (threadID : Nat) (e : Event) :
    (∀ ids, e = .trapped ids → ids ≠ [threadID] →
      stepAndWaitCheck threadID e = .errUnspecifiedThread ids) ∧
    (e = .trapped [threadID] → stepAndWaitCheck threadID e = .ok e) ∧
    ((∀ ids, e ≠ .trapped ids) →
      stepAndWaitCheck threadID e = .errUnexpectedEvent e) := by
  refine ⟨?_, ?_, ?_⟩
  · rintro ids rfl hne
    simp only [stepAndWaitCheck]
    rw [if_pos]
    rcases ids with _ | ⟨a, _ | ⟨b, t⟩⟩
    · left; simp
    · right
      intro hh
      simp only [List.head?_cons, Option.some.injEq] at hh
      exact hne (by rw [hh])
    · left; simp
  · rintro rfl
    simp [stepAndWaitCheck]
  · intro hne
    cases e with
    | trapped ids => exact absurd rfl (hne ids)
    | exited s => simp [stepAndWaitCheck]
    | terminated s => simp [stepAndWaitCheck]

/-- C7 at concrete events: a step of thread 7 that traps `[3, 9]` is the
unspecified-task error carrying `[3, 9]`; a trap of exactly `[7]` is
returned; an exit event is an error. -/
theorem C7_step_unspecified_task_witness :
    stepAndWaitCheck 7 (.trapped [3, 9]) = .errUnspecifiedThread [3, 9] ∧
    stepAndWaitCheck 7 (.trapped [7]) = .ok (.trapped [7]) ∧
    stepAndWaitCheck 7 (.exited 0) = .errUnexpectedEvent (.exited 0) :=
  ⟨(C7_step_unspecified_task 7 (.trapped [3, 9])).1 [3, 9] rfl (by decide),
   (C7_step_unspecified_task 7 (.trapped [7])).2.1 rfl,
   (C7_step_unspecified_task 7 (.exited 0)).2.2
     (fun ids h => Event.noConfusion h)⟩

/-- C10: when `handleTPacket` produces a trapped event, the recorded
pending signal is 0 for a SIGTRAP stop — so the next continue/step sends
the plain `vCont;c` / `vCont;s` — and is the stop's signal number for any
other (nonzero) signal, which the next continue/step re-delivers as
`vCont;C<sig>` / `vCont;S<sig>`. -/
theorem C10_pending_signal_invariant (packet : List Char)
    (stopInfo : Nat → Option (List Char)) (ids : List Nat) (p : Nat)
    (h : handleTPacket packet stopInfo = .trappedEvent ids p) :
    ∃ sigChars sig, sliceChars packet 1 3 = some sigChars ∧
      hexToUint64 sigChars false = some sig ∧
      (sig = sigTrapNum →
        p = 0 ∧ continueCommand p = "vCont;c" ∧
        ∀ tid, stepCommand p tid = "vCont;s:" ++ fmtHex tid) ∧
      (sig ≠ sigTrapNum → p = sig) ∧
      (sig ≠ sigTrapNum → sig ≠ 0 →
        continueCommand p = "vCont;C" ++ fmtHex02 sig ∧
        ∀ tid, stepCommand p tid = "vCont;S" ++ fmtHex02 sig ++ ":" ++ fmtHex tid) := by
  unfold handleTPacket at h
  split at h
  · cases h
  next sigChars h1 =>
    split at h
    · cases h
    next sig h2 =>
      split at h
      · cases h
      next hbad =>
        split at h
        · cases h
        next body h3 =>
          split at h
          · cases h
          next tids h4 =>
            split at h
            · cases h
            next trapped h5 =>
              split at h
              · cases h
              next hz =>
                injection h with hids hp
                refine ⟨sigChars, sig, h1, h2, ?_, ?_, ?_⟩
                · intro htrap
                  have hp0 : p = 0 := by
                    rw [← hp, if_neg]
                    simp [htrap]
                  refine ⟨hp0, ?_, ?_⟩
                  · rw [hp0]; rfl
                  · intro tid; rw [hp0]; rfl
                · intro hne
                  rw [← hp, if_pos hne]
                · intro hne hnz
                  have hps : p = sig := by rw [← hp, if_pos hne]
                  refine ⟨?_, ?_⟩
                  · rw [hps, continueCommand, if_neg hnz]
                  · intro tid; rw [hps, stepCommand, if_neg hnz]

/-- C10 at a concrete stop reply: a `T0b` (signal 11) trapped stop of
thread 1 satisfies the pending-signal invariant — in particular it records
pending signal 11, re-delivered by `vCont;C0b` / `vCont;S0b:1`. -/
theorem C10_pending_signal_invariant_witness :
    handleTPacket ("T0bthread:1;threads:1;").toList
        (fun _ => some ("T05thread:1;").toList) = .trappedEvent [1] 11 ∧
    ∃ sigChars sig,
      sliceChars ("T0bthread:1;threads:1;").toList 1 3 = some sigChars ∧
      hexToUint64 sigChars false = some sig ∧
      (sig = sigTrapNum →
        (11 : Nat) = 0 ∧ continueCommand 11 = "vCont;c" ∧
        ∀ tid, stepCommand 11 tid = "vCont;s:" ++ fmtHex tid) ∧
      (sig ≠ sigTrapNum → (11 : Nat) = sig) ∧
      (sig ≠ sigTrapNum → sig ≠ 0 →
        continueCommand 11 = "vCont;C" ++ fmtHex02 sig ∧
        ∀ tid, stepCommand 11 tid = "vCont;S" ++ fmtHex02 sig ++ ":" ++ fmtHex tid) :=
  ⟨by decide,
   C10_pending_signal_invariant ("T0bthread:1;threads:1;").toList
     (fun _ => some ("T05thread:1;").toList) [1] 11 (by decide)⟩

/-- C2 counterexample: a start trace point added through the public
service operation before `Attach` is silently dropped (`Tracer.
AddStartTracePoint` returns early when no controller is attached), so it
is not installed when the inferior first stops after launch. -/
theorem C2_trace_point_before_attach_dropped :
    (serviceAttach (serviceAddStartTracePoint none 0x42) 0x100).map
      (fun c => c.setPendingTracePoints.breakpointExists 0x42) = some false := by
  decide

/-- C2 (amended): a trace point added through the service while a tracer
is attached is recorded (pending) and installed when the inferior first
stops after launch; this holds for start and end points alike, for any
controller state. -/
theorem C2_trace_points_retained_when_attached (c : ControllerModel)
    (addr : Nat) :
    serviceAddStartTracePoint (some c) addr = some (c.addStartTracePoint addr) ∧
    (c.addStartTracePoint addr).startTracePoints.contains addr = true ∧
    (c.addStartTracePoint addr).setPendingTracePoints.breakpointExists addr = true ∧
    serviceAddEndTracePoint (some c) addr = some (c.addEndTracePoint addr) ∧
    (c.addEndTracePoint addr).endTracePoints.contains addr = true ∧
    (c.addEndTracePoint addr).setPendingTracePoints.breakpointExists addr = true := by
  refine ⟨rfl, ?_, ?_, rfl, ?_, ?_⟩
  · simp [ControllerModel.addStartTracePoint]
  · simp [ControllerModel.addStartTracePoint, ControllerModel.setPendingTracePoints,
      ControllerModel.breakpointExists]
  · simp [ControllerModel.addEndTracePoint]
  · simp [ControllerModel.addEndTracePoint, ControllerModel.setPendingTracePoints,
      ControllerModel.breakpointExists]

/-- A parser whose memory reads all fail and with no runtime-type
resolver; concrete instantiation for witnesses. -/
def nullReader : VParser :=
  { read := fun _ _ => none, mapRuntimeType := none }

/-- Well-formedness of a memory reader: `ReadMemory` fills a caller-sized
buffer, so a successful read returns exactly the requested byte count. -/
def VParser.ReadsExact (p : VParser) : Prop :=
  ∀ a n bs, p.read a n = some bs → bs.length = n

/-- The DWARF shape the target toolchain emits for a slice header:
`{array *T, len int, cap int}`, size 24, with a `[]`-prefixed struct name
(the name only steers `parseValue`'s dispatch). -/
def sliceHeaderType (elem : DwarfType) : DwarfType :=
  .strukt "[]int" 24
    [("array", 0, .ptr 8 elem), ("len", 8, .int 8), ("cap", 16, .int 8)]

/-- C3: parsing and rendering a primitive type's zero value gives the
canonical zero literal — `0` for every integer, unsigned and float width,
`false` for bool, `""` for the empty string, `nil` for a zero-length
slice, and a null pointer prints the hex zero `0x0`, never a leading
`&`. -/
theorem C3_primitive_zero_values (p : VParser) (fuel : Nat) (d : Int)
    (hp : p.ReadsExact) (hd : 0 ≤ d) :
    (∀ sz, sz = 1 ∨ sz = 2 ∨ sz = 4 ∨ sz = 8 →
      (parseValue p (fuel + 1) (.int sz) (List.replicate sz 0) d).bind
        renderValue = some "0") ∧
    (∀ sz, sz = 1 ∨ sz = 2 ∨ sz = 4 ∨ sz = 8 →
      (parseValue p (fuel + 1) (.uint sz) (List.replicate sz 0) d).bind
        renderValue = some "0") ∧
    (∀ sz, sz = 4 ∨ sz = 8 →
      (parseValue p (fuel + 1) (.float sz) (List.replicate sz 0) d).bind
        renderValue = some "0") ∧
    ((parseValue p (fuel + 1) (.bool 1) [0] d).bind renderValue
      = some "false") ∧
    (∀ ssz flds,
      (parseValue p (fuel + 2) (.strukt "string" ssz flds)
          (List.replicate 16 0) d).bind renderValue = some "\"\"") ∧
    (∀ elem,
      (parseValue p (fuel + 7) (sliceHeaderType elem)
          (List.replicate 24 0) d).bind renderValue = some "nil") ∧
    (∀ psz elem,
      parseValue p (fuel + 1) (.ptr psz elem) (List.replicate 8 0) d
        = some (.ptrV (.ptr psz elem) 0 none) ∧
      (parseValue p (fuel + 1) (.ptr psz elem) (List.replicate 8 0) d).bind
        renderValue = some "0x0" ∧
      ∀ rest : String, ("0x0" : String) ≠ "&" ++ rest) := by
  refine ⟨?_, ?_, ?_, rfl, ?_, ?_, ?_⟩
  · rintro sz (rfl | rfl | rfl | rfl) <;> rfl
  · rintro sz (rfl | rfl | rfl | rfl) <;> rfl
  · rintro sz (rfl | rfl) <;> rfl
  · intro ssz flds
    have hstep : parseValue p (fuel + 2) (.strukt "string" ssz flds)
        (List.replicate 16 0) d =
        (match p.read 0 0 with
          | none => some (.stringV (.strukt "string" ssz flds) [])
          | some buff => some (.stringV (.strukt "string" ssz flds) buff)) := rfl
    rw [hstep]
    cases hr : p.read 0 0 with
    | none => rfl
    | some buff =>
      have hlen : buff.length = 0 := hp _ _ _ hr
      have : buff = [] := List.length_eq_zero.mp hlen
      subst this
      rfl
  · intro elem
    obtain ⟨k, rfl⟩ : ∃ k : Nat, d = (k : Int) :=
      ⟨d.toNat, (Int.toNat_of_nonneg hd).symm⟩
    rfl
  · intro psz elem
    refine ⟨rfl, rfl, ?_⟩
    intro rest h
    have hd2 := congrArg String.data h
    rw [String.data_append] at hd2
    simp at hd2

/-- C3 at concrete inputs: the zero values of `int64`, `uint8`,
`float64`, `bool`, `string`, `[]int64` and `*int64`, parsed with the
all-failing reader, render as `0`, `0`, `0`, `false`, `""`, `nil` and
`0x0`. -/
theorem C3_primitive_zero_values_witness :
    (parseValue nullReader 1 (.int 8) (List.replicate 8 0) 0).bind
      renderValue = some "0" ∧
    (parseValue nullReader 1 (.uint 1) (List.replicate 1 0) 0).bind
      renderValue = some "0" ∧
    (parseValue nullReader 1 (.float 8) (List.replicate 8 0) 0).bind
      renderValue = some "0" ∧
    (parseValue nullReader 1 (.bool 1) [0] 0).bind renderValue
      = some "false" ∧
    (parseValue nullReader 2 (.strukt "string" 16 []) (List.replicate 16 0)
      0).bind renderValue = some "\"\"" ∧
    (parseValue nullReader 7 (sliceHeaderType (.int 8))
      (List.replicate 24 0) 0).bind renderValue = some "nil" ∧
    (parseValue nullReader 1 (.ptr 8 (.int 8)) (List.replicate 8 0) 0).bind
      renderValue = some "0x0" := by
  have h := C3_primitive_zero_values nullReader 0 0
    (fun a n bs hbs => by simp [nullReader] at hbs) (by omega)
  exact ⟨h.1 8 (by tauto), h.2.1 1 (by tauto), h.2.2.1 8 (by tauto),
    h.2.2.2.1, h.2.2.2.2.1 16 [], h.2.2.2.2.2.1 (.int 8),
    (h.2.2.2.2.2.2 8 (.int 8)).2.1⟩

/-- C4: the struct depth budget — with a non-positive budget a struct is
rendered exactly `{...}`; with a positive budget each field is parsed with
budget `d - 1`; and the built-in wrappers consume no budget: a typedef
parses its underlying type at the same `d`, the slice header is parsed at
`d + 1` (so its fields see `d` again), string parsing ignores `d`
entirely, slice elements are parsed at the parent's `d`, and a resolved
interface's concrete value is parsed at the interface's own `d`. -/
theorem C4_struct_depth_budget (p : VParser) (fuel : Nat) (val : List Nat)
    (d : Int) :
    (∀ typ, d ≤ 0 →
      parseStructValue p (fuel + 1) typ val d = some (.structV typ [] true) ∧
      renderValue (.structV typ [] true) = some "\x7b...\x7d") ∧
    (∀ nm off fty rest,
      parseStructFields p (fuel + 1) ((nm, off, fty) :: rest) val d =
        (goSlice val off (off + fty.size)).bind fun bytes =>
        (parseValue p fuel fty bytes (d - 1)).bind fun v =>
        (parseStructFields p fuel rest val d).bind fun tail =>
        some ((nm, v) :: tail)) ∧
    (∀ nm u, parseValue p (fuel + 1) (.typedef nm u) val d =
      parseValue p fuel u val d) ∧
    (∀ typ, (parseSliceValue p (fuel + 1) typ val d).isSome →
      (parseStructValue p fuel typ val (d + 1)).isSome) ∧
    (∀ sz flds d', parseValue p (fuel + 1) (.strukt "string" sz flds) val d =
      parseValue p (fuel + 1) (.strukt "string" sz flds) val d') ∧
    (∀ typ it iv, parseInterfaceValue p (fuel + 1) typ val d =
        some (.ifaceV typ (some it) (some iv) false) →
      ∃ buff, parseValue p fuel it buff d = some iv) ∧
    (∀ typ it iv, parseEmptyInterfaceValue p (fuel + 1) typ val d =
        some (.ifaceV typ (some it) (some iv) false) →
      ∃ buff, parseValue p fuel it buff d = some iv) ∧
    (∀ ptyp addr esz i c x rest,
      parseSliceElems p (fuel + 1) ptyp addr esz i (c + 1) d = some (x :: rest) →
      ∃ pv, parseValue p fuel ptyp
          (leBytes8 (wrap64 (addr + wrap64 (u64ofInt esz * i)))) d = some pv ∧
        ∃ pt a, pv = .ptrV pt a x) := by
  refine ⟨?_, ?_, ?_, ?_, ?_, ?_, ?_, ?_⟩
  · intro typ hdle
    constructor
    · have heq : parseStructValue p (fuel + 1) typ val d =
          if d ≤ 0 then some (.structV typ [] true)
          else
            match typ with
            | .strukt _ _ flds =>
              (parseStructFields p fuel flds val d).bind fun fs =>
                some (.structV typ fs false)
            | _ => none := rfl
      rw [heq, if_pos hdle]
    · rfl
  · intro nm off fty rest
    rfl
  · intro nm u
    rfl
  · intro typ h
    cases hsv : parseStructValue p fuel typ val (d + 1) with
    | some sv => simp
    | none =>
      exfalso
      have heq : parseSliceValue p (fuel + 1) typ val d =
          (parseStructValue p fuel typ val (d + 1)).bind _ := rfl
      rw [heq, hsv] at h
      simp at h
  · intro sz flds d'
    rfl
  · intro typ it iv h
    have heq : parseInterfaceValue p (fuel + 1) typ val d =
        (parseStructValue p fuel typ val 2).bind _ := rfl
    rw [heq] at h
    rw [Option.bind_eq_some] at h
    obtain ⟨sv, hsv, h⟩ := h
    simp only [Option.bind_eq_bind', Option.bind_eq_some] at h
    obtain ⟨flds, hflds, h⟩ := h
    obtain ⟨tab, htab, h⟩ := h
    cases tab <;> try exact Option.noConfusion h
    next ptt taba pointed =>
      cases pointed with
      | none => exact absurd h (by simp)
      | some tabV =>
        cases hres : p.mapRuntimeType with
        | none => rw [hres] at h; exact absurd h (by simp)
        | some resolver =>
          rw [hres] at h
          simp only [Option.bind_eq_bind', Option.bind_eq_some] at h
          obtain ⟨tabFlds, htf, h⟩ := h
          obtain ⟨tptr, htp, h⟩ := h
          cases tptr <;> try exact Option.noConfusion h
          next ptt2 rAddr po2 =>
            dsimp only at h
            cases hr : resolver rAddr with
            | none => rw [hr] at h; exact absurd h (by simp)
            | some implType =>
              rw [hr] at h
              simp only [Option.bind_eq_bind', Option.bind_eq_some] at h
              obtain ⟨dataV, hdv, h⟩ := h
              cases dataV <;> try exact Option.noConfusion h
              next ptt3 dAddr po3 =>
                dsimp only at h
                split at h
                · simp only [Option.bind_eq_bind', Option.bind_eq_some] at h
                  obtain ⟨ivv, hiv, h⟩ := h
                  simp only [Option.some.injEq, Value.ifaceV.injEq] at h
                  obtain ⟨-, hit, hiv2, -⟩ := h
                  subst hit
                  subst hiv2
                  exact ⟨_, hiv⟩
                · by_cases hneg : implType.size < 0
                  · rw [if_pos hneg] at h; exact Option.noConfusion h
                  · rw [if_neg hneg] at h
                    cases hread : p.read dAddr implType.size.toNat with
                    | none => rw [hread] at h; exact absurd h (by simp)
                    | some dataBuff =>
                      rw [hread] at h
                      simp only [Option.bind_eq_bind', Option.bind_eq_some] at h
                      obtain ⟨ivv, hiv, h⟩ := h
                      simp only [Option.some.injEq, Value.ifaceV.injEq] at h
                      obtain ⟨-, hit, hiv2, -⟩ := h
                      subst hit
                      subst hiv2
                      exact ⟨_, hiv⟩
  · intro typ it iv h
    have heq : parseEmptyInterfaceValue p (fuel + 1) typ val d =
        (parseStructValue p fuel typ val 1).bind _ := rfl
    rw [heq] at h
    rw [Option.bind_eq_some] at h
    obtain ⟨sv, hsv, h⟩ := h
    simp only [Option.bind_eq_bind', Option.bind_eq_some] at h
    obtain ⟨flds, hflds, h⟩ := h
    obtain ⟨dataV, hdv, h⟩ := h
    cases dataV <;> try exact Option.noConfusion h
    next ptt dAddr po =>
      dsimp only at h
      by_cases hz : dAddr = 0
      · rw [if_pos hz] at h; exact absurd h (by simp)
      · rw [if_neg hz] at h
        cases hres : p.mapRuntimeType with
        | none => rw [hres] at h; exact absurd h (by simp)
        | some resolver =>
          rw [hres] at h
          simp only [Option.bind_eq_bind', Option.bind_eq_some] at h
          obtain ⟨tptr, htp, h⟩ := h
          cases tptr <;> try exact Option.noConfusion h
          next ptt2 rAddr po2 =>
            dsimp only at h
            cases hr : resolver rAddr with
            | none => rw [hr] at h; exact absurd h (by simp)
            | some implType =>
              rw [hr] at h
              dsimp only at h
              split at h
              · simp only [Option.bind_eq_bind', Option.bind_eq_some] at h
                obtain ⟨ivv, hiv, h⟩ := h
                simp only [Option.some.injEq, Value.ifaceV.injEq] at h
                obtain ⟨-, hit, hiv2, -⟩ := h
                subst hit
                subst hiv2
                exact ⟨_, hiv⟩
              · by_cases hneg : implType.size < 0
                · rw [if_pos hneg] at h; exact Option.noConfusion h
                · rw [if_neg hneg] at h
                  cases hread : p.read dAddr implType.size.toNat with
                  | none => rw [hread] at h; exact absurd h (by simp)
                  | some dataBuff =>
                    rw [hread] at h
                    simp only [Option.bind_eq_bind', Option.bind_eq_some] at h
                    obtain ⟨ivv, hiv, h⟩ := h
                    simp only [Option.some.injEq, Value.ifaceV.injEq] at h
                    obtain ⟨-, hit, hiv2, -⟩ := h
                    subst hit
                    subst hiv2
                    exact ⟨_, hiv⟩
  · intro ptyp addr esz i c x rest h
    have heq : parseSliceElems p (fuel + 1) ptyp addr esz i (c + 1) d =
        (parseValue p fuel ptyp
          (leBytes8 (wrap64 (addr + wrap64 (u64ofInt esz * i)))) d).bind _ := rfl
    rw [heq] at h
    rw [Option.bind_eq_some] at h
    obtain ⟨pv, hpv, h⟩ := h
    refine ⟨pv, hpv, ?_⟩
    cases pv <;> try exact Option.noConfusion h
    next pt a pointed =>
      simp only [Option.bind_eq_bind', Option.bind_eq_some] at h
      obtain ⟨tail, htail, h2⟩ := h
      simp only [Option.some.injEq, List.cons.injEq] at h2
      exact ⟨pt, a, by rw [h2.1]⟩

/-- C4 at concrete inputs: a one-field struct at budget 0 is abbreviated
and renders `{...}`; a typedef of `int64` parses at the same budget as the
underlying type; a slice whose successful parse at budget 0 implies its
header struct parsed at budget 1. -/
theorem C4_struct_depth_budget_witness :
    (parseStructValue nullReader 1 (.strukt "main.S" 8 [("x", 0, .int 8)])
        (List.replicate 8 7) 0 =
        some (.structV (.strukt "main.S" 8 [("x", 0, .int 8)]) [] true) ∧
      renderValue (.structV (.strukt "main.S" 8 [("x", 0, .int 8)]) [] true) =
        some "\x7b...\x7d") ∧
    (parseValue nullReader 2 (DwarfType.typedef ("main.T") (.int 8))
        (List.replicate 8 0) 1 =
      parseValue nullReader 1 (.int 8) (List.replicate 8 0) 1) ∧
    (parseStructValue nullReader 6 (sliceHeaderType (.int 8))
        (List.replicate 24 0) (0 + 1)).isSome :=
  ⟨(C4_struct_depth_budget nullReader 0 (List.replicate 8 7) 0).1
      (.strukt "main.S" 8 [("x", 0, .int 8)]) (le_refl 0),
   (C4_struct_depth_budget nullReader 1 (List.replicate 8 0) 1).2.2.1
      "main.T" (.int 8),
   (C4_struct_depth_budget nullReader 6 (List.replicate 24 0) 0).2.2.2.1
      (sliceHeaderType (.int 8)) (by decide)⟩

/-- A successful bounded render of slice elements produces
`min cutoff length` strings. -/
theorem renderOpts_length :
    ∀ (es : List (Option Value)) (k : Nat) (vals : List String),
      renderOpts k es = some vals → vals.length = min k es.length := by
  intro es
  induction es with
  | nil =>
    intro k vals h
    cases k <;> (simp [renderOpts] at h; simp [← h])
  | cons e rest ih =>
    intro k vals h
    cases k with
    | zero =>
      simp [renderOpts] at h
      simp [← h]
    | succ k =>
      cases e with
      | none => simp [renderOpts] at h
      | some v =>
        have heq : renderOpts (k + 1) (some v :: rest) =
            (renderValue v).bind fun s =>
            (renderOpts k rest).bind fun rs => some (s :: rs) := rfl
        rw [heq] at h
        rw [Option.bind_eq_some] at h
        obtain ⟨s, hs, h⟩ := h
        rw [Option.bind_eq_some] at h
        obtain ⟨rs, hrs, h⟩ := h
        simp only [Option.some.injEq] at h
        subst h
        have := ih k rs hrs
        simp only [List.length_cons, this]
        omega

/-- The element loop of `parseSliceValue`, characterized: a successful
run of `count` iterations starting at index `i` yields exactly `count`
elements, and element `k` is the `pointedVal` of a pointer parsed (with
the same budget `d`) from the synthetic address
`array + uint64(element_size) * uint64(i + k)`. -/
theorem parseSliceElems_spec (p : VParser) (ptyp : DwarfType) (addr : Nat)
    (esz : Int) (d : Int) :
    ∀ (cnt : Nat) (F i : Nat) (es : List (Option Value)),
      parseSliceElems p F ptyp addr esz i cnt d = some es →
      es.length = cnt ∧
      ∀ k, k < cnt → ∃ pv, parseValue p (F - (k + 1)) ptyp
          (leBytes8 (wrap64 (addr + wrap64 (u64ofInt esz * (i + k))))) d
            = some pv ∧
        ∃ pt a x, pv = .ptrV pt a x ∧ es.get? k = some x := by
  intro cnt
  induction cnt with
  | zero =>
    intro F i es h
    cases F with
    | zero => cases h
    | succ f =>
      have heq : parseSliceElems p (f + 1) ptyp addr esz i 0 d = some [] := rfl
      rw [heq] at h
      simp only [Option.some.injEq] at h
      subst h
      exact ⟨rfl, by omega⟩
  | succ c ih =>
    intro F i es h
    cases F with
    | zero => cases h
    | succ f =>
      have heq : parseSliceElems p (f + 1) ptyp addr esz i (c + 1) d =
          (parseValue p f ptyp
            (leBytes8 (wrap64 (addr + wrap64 (u64ofInt esz * i)))) d).bind _ := rfl
      rw [heq] at h
      rw [Option.bind_eq_some] at h
      obtain ⟨pv, hpv, h⟩ := h
      cases pv <;> try exact Option.noConfusion h
      next pt a pointed =>
        simp only [Option.bind_eq_bind', Option.bind_eq_some] at h
        obtain ⟨tail, htail, h⟩ := h
        simp only [Option.some.injEq] at h
        subst h
        obtain ⟨hlen, helems⟩ := ih f (i + 1) tail htail
        refine ⟨by simpa using hlen, ?_⟩
        intro k hk
        cases k with
        | zero =>
          refine ⟨.ptrV pt a pointed, ?_, pt, a, pointed, rfl, rfl⟩
          simpa using hpv
        | succ k =>
          obtain ⟨pv, hpv2, pt2, a2, x2, hshape, hget⟩ := helems k (by omega)
          refine ⟨pv, ?_, pt2, a2, x2, hshape, by simpa using hget⟩
          have h1 : i + 1 + k = i + (k + 1) := by omega
          have h2 : f - (k + 1) = f + 1 - (k + 1 + 1) := by omega
          rw [h1, h2] at hpv2
          exact hpv2

/-- C5: slice parsing and rendering — a slice whose `len` field is 0
parses to the empty slice value and renders exactly `nil`; otherwise
element `i` is read through a pointer at `array + i * element_size`; the
renderer prints at most 8 elements and appends `, ...` exactly when the
length exceeds 8. -/
theorem C5_slice_rendering (p : VParser) (fuel : Nat) (val : List Nat)
    (d : Int) :
    (∀ typ sv flds t0,
      parseStructValue p fuel typ val (d + 1) = some sv →
      asStructFields sv = some flds →
      lookupGoMap flds "len" = some (.intV t0 8 0) →
      parseSliceValue p (fuel + 1) typ val d = some (.sliceV typ []) ∧
      renderValue (.sliceV typ []) = some "nil") ∧
    (∀ (cnt F i : Nat) (ptyp : DwarfType) (addr : Nat) (esz : Int)
        (es : List (Option Value)),
      parseSliceElems p F ptyp addr esz i cnt d = some es →
      es.length = cnt ∧
      ∀ k, k < cnt → ∃ pv, parseValue p (F - (k + 1)) ptyp
          (leBytes8 (wrap64 (addr + wrap64 (u64ofInt esz * (i + k))))) d
            = some pv ∧
        ∃ pt a x, pv = .ptrV pt a x ∧ es.get? k = some x) ∧
    (∀ typ es s, renderValue (.sliceV typ es) = some s →
      (es.length = 0 → s = "nil") ∧
      (es.length ≠ 0 → ∃ vals,
        renderOpts maxContainerItemsToPrint es = some vals ∧
        vals.length = min maxContainerItemsToPrint es.length ∧
        s = (if maxContainerItemsToPrint < es.length
             then "[]\x7b" ++ String.intercalate ", " vals ++ ", ...\x7d"
             else "[]\x7b" ++ String.intercalate ", " vals ++ "\x7d"))) := by
  refine ⟨?_, ?_, ?_⟩
  · intro typ sv flds t0 hsv hflds hlen
    constructor
    · have heq : parseSliceValue p (fuel + 1) typ val d =
          (parseStructValue p fuel typ val (d + 1)).bind _ := rfl
      rw [heq, hsv]
      simp only [Option.bind_eq_bind', Option.some_bind]
      rw [hflds]
      simp only [Option.bind_eq_bind', Option.some_bind]
      rw [hlen]
      simp only [Option.bind_eq_bind', Option.some_bind]
      rfl
    · rfl
  · intro cnt F i ptyp addr esz es h
    exact parseSliceElems_spec p ptyp addr esz d cnt F i es h
  · intro typ es s h
    have heq : renderValue (.sliceV typ es) =
        if es.length = 0 then some "nil"
        else (renderOpts maxContainerItemsToPrint es).bind fun vals =>
          if maxContainerItemsToPrint < es.length
          then some ("[]\x7b" ++ String.intercalate ", " vals ++ ", ...\x7d")
          else some ("[]\x7b" ++ String.intercalate ", " vals ++ "\x7d") := rfl
    rw [heq] at h
    by_cases hz : es.length = 0
    · rw [if_pos hz] at h
      simp only [Option.some.injEq] at h
      exact ⟨fun _ => h.symm, fun hne => absurd hz hne⟩
    · rw [if_neg hz] at h
      refine ⟨fun hzz => absurd hzz hz, fun _ => ?_⟩
      rw [Option.bind_eq_some] at h
      obtain ⟨vals, hvals, h⟩ := h
      refine ⟨vals, hvals, renderOpts_length es maxContainerItemsToPrint vals hvals, ?_⟩
      by_cases hgt : maxContainerItemsToPrint < es.length
      · rw [if_pos hgt] at h
        rw [if_pos hgt]
        simp only [Option.some.injEq] at h
        exact h.symm
      · rw [if_neg hgt] at h
        rw [if_neg hgt]
        simp only [Option.some.injEq] at h
        exact h.symm

/-- A reader holding the three `int64` slice elements 10, 20, 30 at
`0x1000`. -/
def sliceMem : VParser :=
  { read := fun addr n =>
      if addr = 0x1000 ∧ n = 8 then some (leBytes8 10)
      else if addr = 0x1008 ∧ n = 8 then some (leBytes8 20)
      else if addr = 0x1010 ∧ n = 8 then some (leBytes8 30)
      else none,
    mapRuntimeType := none }

/-- C5 at concrete inputs: the zero-length slice parses empty and renders
`nil`; the element loop over elements 1 and 2 of the slice at `0x1000`
yields the values read at `0x1008` and `0x1010`; a 9-element slice
renders 8 elements with the `, ...` suffix. -/
theorem C5_slice_rendering_witness :
    (parseSliceValue nullReader 7 (sliceHeaderType (.int 8))
        (List.replicate 24 0) 0 =
        some (.sliceV (sliceHeaderType (.int 8)) []) ∧
      renderValue (.sliceV (sliceHeaderType (.int 8)) []) = some "nil") ∧
    (([some (.intV (.int 8) 8 20), some (.intV (.int 8) 8 30)] :
        List (Option Value)).length = 2 ∧
      ∀ k, k < 2 → ∃ pv, parseValue sliceMem (5 - (k + 1)) (.ptr 8 (.int 8))
          (leBytes8 (wrap64 (0x1000 + wrap64 (u64ofInt 8 * (1 + k))))) 0
            = some pv ∧
        ∃ pt a x, pv = .ptrV pt a x ∧
          ([some (.intV (.int 8) 8 20), some (.intV (.int 8) 8 30)] :
            List (Option Value)).get? k = some x) ∧
    ((List.replicate 9 (some (.intV (.int 8) 8 1)) :
        List (Option Value)).length = 0 →
      "[]\x7b1, 1, 1, 1, 1, 1, 1, 1, ...\x7d" = "nil") ∧
    ((List.replicate 9 (some (.intV (.int 8) 8 1)) :
        List (Option Value)).length ≠ 0 → ∃ vals,
      renderOpts maxContainerItemsToPrint
          (List.replicate 9 (some (.intV (.int 8) 8 1))) = some vals ∧
      vals.length = min maxContainerItemsToPrint
        (List.replicate 9 (some (.intV (.int 8) 8 1)) :
          List (Option Value)).length ∧
      "[]\x7b1, 1, 1, 1, 1, 1, 1, 1, ...\x7d" =
        (if maxContainerItemsToPrint <
            (List.replicate 9 (some (.intV (.int 8) 8 1)) :
              List (Option Value)).length
          then "[]\x7b" ++ String.intercalate ", " vals ++ ", ...\x7d"
          else "[]\x7b" ++ String.intercalate ", " vals ++ "\x7d")) :=
  have h3 := (C5_slice_rendering (.mk (fun _ _ => none) none) 0
      (List.replicate 24 0) 0).2.2 (.int 8)
      (List.replicate 9 (some (.intV (.int 8) 8 1)))
      "[]\x7b1, 1, 1, 1, 1, 1, 1, 1, ...\x7d" rfl
  ⟨(C5_slice_rendering nullReader 6 (List.replicate 24 0) 0).1
      (sliceHeaderType (.int 8))
      (.structV (sliceHeaderType (.int 8))
        [("array", .ptrV (.ptr 8 (.int 8)) 0 none),
         ("len", .intV (.int 8) 8 0), ("cap", .intV (.int 8) 8 0)] false)
      [("array", .ptrV (.ptr 8 (.int 8)) 0 none),
       ("len", .intV (.int 8) 8 0), ("cap", .intV (.int 8) 8 0)]
      (.int 8) rfl rfl rfl,
   (C5_slice_rendering sliceMem 0 [] 0).2.1 2 5 1 (.ptr 8 (.int 8))
      0x1000 8
      [some (.intV (.int 8) 8 20), some (.intV (.int 8) 8 30)] rfl,
   h3.1, h3.2⟩

set_option maxHeartbeats 1600000 in
/-- C8: the TLS-read routine — the register writes it performs on the
thread are either none at all or exactly the PC redirection followed by
the snapshot restore, so when register writes succeed the thread's (and
every other thread's) register file is unchanged on return; and the stub
memory is written exactly when the requested offset differs from the one
currently installed (no write at all for a repeated offset, and on a
successful write the stub holds the newly built 9-byte function). -/
theorem C8_read_tls_registers_and_stub (c : TLSClient) (env : TLSEnv)
    (tid : Nat) (off : Int) :
    ((readTLS c env tid off).regWrites = [] ∨
      (readTLS c env tid off).regWrites =
        [{ c.regs tid with rip := c.readTLSFuncAddr }, c.regs tid]) ∧
    (env.writeRestoreOk = true →
      ∀ t, (readTLS c env tid off).client.regs t = c.regs t) ∧
    ((readTLS c env tid off).stubWrites =
      if c.currentTLSOffset = (off % (2 ^ 32 : Int)).toNat then 0 else 1) ∧
    (c.currentTLSOffset = (off % (2 ^ 32 : Int)).toNat →
      (readTLS c env tid off).client.stub = c.stub) ∧
    (c.currentTLSOffset ≠ (off % (2 ^ 32 : Int)).toNat →
      env.writeMemOk = true →
      (readTLS c env tid off).client.stub =
        buildReadTLSFunction ((off % (2 ^ 32 : Int)).toNat)) := by
  obtain ⟨wm, rr1, wmod, stp, rr2, wres, eff⟩ := env
  by_cases hcur : c.currentTLSOffset = (off % (2 ^ 32 : Int)).toNat
  all_goals
    cases wm <;> cases rr1 <;> cases wmod <;> cases stp <;> cases rr2 <;>
      cases wres <;>
      refine ⟨?_, ?_, ?_, ?_, ?_⟩ <;>
      simp [readTLS, updateReadTLSFunction, TLSClient.setRegs, hcur] <;>
      first
      | (intro t; by_cases ht : t = tid <;> simp [ht])
      | (split <;> simp_all)

/-- C8 at a concrete state: with all operations succeeding, reading TLS
offset 16 from a client whose stub currently holds offset 16 performs no
stub write, leaves the registers unchanged, and its register writes are
the redirect followed by the restore; requesting offset 32 issues exactly
one stub write. -/
theorem C8_read_tls_registers_and_stub_witness :
    ((readTLS ⟨fun _ => ⟨7, 8, 9⟩, 16, 0x5000, buildReadTLSFunction 16⟩
        ⟨true, true, true, true, true, true, id⟩ 1 16).regWrites = [] ∨
      (readTLS ⟨fun _ => ⟨7, 8, 9⟩, 16, 0x5000, buildReadTLSFunction 16⟩
        ⟨true, true, true, true, true, true, id⟩ 1 16).regWrites =
        [{ (⟨7, 8, 9⟩ : Registers) with rip := 0x5000 }, ⟨7, 8, 9⟩]) ∧
    (∀ t, (readTLS ⟨fun _ => ⟨7, 8, 9⟩, 16, 0x5000, buildReadTLSFunction 16⟩
        ⟨true, true, true, true, true, true, id⟩ 1 16).client.regs t = ⟨7, 8, 9⟩) ∧
    ((readTLS ⟨fun _ => ⟨7, 8, 9⟩, 16, 0x5000, buildReadTLSFunction 16⟩
        ⟨true, true, true, true, true, true, id⟩ 1 16).stubWrites = 0) ∧
    ((readTLS ⟨fun _ => ⟨7, 8, 9⟩, 16, 0x5000, buildReadTLSFunction 16⟩
        ⟨true, true, true, true, true, true, id⟩ 1 32).stubWrites = 1) := by
  have h16 := C8_read_tls_registers_and_stub
    ⟨fun _ => ⟨7, 8, 9⟩, 16, 0x5000, buildReadTLSFunction 16⟩
    ⟨true, true, true, true, true, true, id⟩ 1 16
  have h32 := C8_read_tls_registers_and_stub
    ⟨fun _ => ⟨7, 8, 9⟩, 16, 0x5000, buildReadTLSFunction 16⟩
    ⟨true, true, true, true, true, true, id⟩ 1 32
  exact ⟨h16.1, fun t => h16.2.1 rfl t, by rw [h16.2.2.1]; rfl,
    by rw [h32.2.2.1]; rfl⟩

/-! ### Hex payload round-trip lemmas -/

/-- Chunking undoes flattening of a pair list. -/
theorem chunkPairs_flatPairs (L : List (Char × Char)) :
    chunkPairs (flatPairs L) = L := by
  induction L with
  | nil => rfl
  | cons p rest ih => simp [flatPairs, chunkPairs, ih]

/-- Flattening undoes chunking of an even-length list. -/
theorem flatPairs_chunkPairs :
    ∀ (n : Nat) (l : List Char), l.length ≤ n → l.length % 2 = 0 →
      flatPairs (chunkPairs l) = l := by
  intro n
  induction n with
  | zero =>
    intro l hl _
    have : l = [] := List.length_eq_zero.mp (by omega)
    subst this
    rfl
  | succ n ih =>
    intro l hl hev
    match l with
    | [] => rfl
    | [a] => simp at hev
    | a :: b :: rest =>
      have h1 : rest.length ≤ n := by
        simp only [List.length_cons] at hl
        omega
      have h2 : rest.length % 2 = 0 := by
        simp only [List.length_cons] at hev
        omega
      simp [chunkPairs, flatPairs, ih rest h1 h2]

/-- `flatPairs` doubles the length. -/
theorem flatPairs_length (L : List (Char × Char)) :
    (flatPairs L).length = 2 * L.length := by
  induction L with
  | nil => rfl
  | cons p rest ih => simp [flatPairs, ih]; omega

/-- The byte-pair reversal preserves the length of even-length input. -/
theorem revPairs_length (l : List Char) (h : l.length % 2 = 0) :
    (revPairs l).length = l.length := by
  have := flatPairs_chunkPairs l.length l (le_refl _) h
  have hlen := congrArg List.length this
  simp only [revPairs, flatPairs_length, List.length_reverse] at *
  omega

/-- The byte-pair reversal is an involution on even-length input. -/
theorem revPairs_revPairs (l : List Char) (h : l.length % 2 = 0) :
    revPairs (revPairs l) = l := by
  simp only [revPairs, chunkPairs_flatPairs, List.reverse_reverse]
  exact flatPairs_chunkPairs l.length l (le_refl _) h

/-- The folding step of `parseUintHex64`. -/
def hexFoldStep (acc : Nat) (c : Char) : Option Nat :=
  (hexCharVal c).map fun d => acc * 16 + d

/-- A hex digit character decodes to its value. -/
theorem hexCharVal_hexDigitChar (d : Nat) (h : d < 16) :
    hexCharVal (hexDigitChar d) = some d := by
  interval_cases d <;> rfl

/-- Folding the digits of `n` onto an accumulator: the digits append below
the accumulator in base 16. -/
theorem foldlM_natHexDigitsAux :
    ∀ (fuel n acc : Nat), n < 16 ^ fuel → 0 < fuel →
      ∃ k, 0 < k ∧ (natHexDigitsAux fuel n).length = k ∧
        List.foldlM hexFoldStep acc (natHexDigitsAux fuel n) =
          some (acc * 16 ^ k + n) := by
  intro fuel
  induction fuel with
  | zero => intro n acc _ h0; omega
  | succ fuel ih =>
    intro n acc hn _
    by_cases hsmall : n < 16
    · refine ⟨1, by omega, ?_, ?_⟩
      · simp [natHexDigitsAux, hsmall]
      · simp [natHexDigitsAux, hsmall, List.foldlM, hexFoldStep,
          hexCharVal_hexDigitChar n hsmall]
    · have hfuel : 0 < fuel := by
        by_contra h0
        have : fuel = 0 := by omega
        subst this
        simp at hn
        omega
      have hdiv : n / 16 < 16 ^ fuel := by
        have h16 : 16 ^ (fuel + 1) = 16 * 16 ^ fuel := by
          rw [Nat.pow_succ, Nat.mul_comm]
        rw [h16] at hn
        exact Nat.div_lt_of_lt_mul hn
      obtain ⟨k, hk, hlen, hfold⟩ := ih (n / 16) acc hdiv hfuel
      refine ⟨k + 1, by omega, ?_, ?_⟩
      · simp [natHexDigitsAux, hsmall, hlen]
      · have hstep : natHexDigitsAux (fuel + 1) n =
            natHexDigitsAux fuel (n / 16) ++ [hexDigitChar (n % 16)] := by
          simp [natHexDigitsAux, hsmall]
        rw [hstep, List.foldlM_append, hfold]
        have hm : n % 16 < 16 := Nat.mod_lt _ (by omega)
        simp only [List.foldlM, hexFoldStep, hexCharVal_hexDigitChar _ hm,
          Option.map_some', Option.some_bind]
        have : (acc * 16 ^ k + n / 16) * 16 + n % 16 =
            acc * 16 ^ (k + 1) + n := by
          have := Nat.div_add_mod n 16
          ring_nf
          omega
        simp [this]

/-- Leading zero characters do not change a zero accumulator. -/
theorem foldlM_zeros (m : Nat) :
    List.foldlM hexFoldStep 0 (List.replicate m '0') = some 0 := by
  induction m with
  | zero => rfl
  | succ m ih =>
    simp only [List.replicate_succ, List.foldlM_cons]
    have h0 : hexFoldStep 0 '0' = some 0 := rfl
    rw [h0]
    simpa using ih

/-- The digit list of a 64-bit value has at most 16 digits. -/
theorem natHexDigitsAux_length_le :
    ∀ (fuel n m : Nat), n < 16 ^ m → 0 < m →
      (natHexDigitsAux fuel n).length ≤ m := by
  intro fuel
  induction fuel with
  | zero => intro n m _ _; simp [natHexDigitsAux]
  | succ fuel ih =>
    intro n m hn hm
    by_cases hsmall : n < 16
    · simp [natHexDigitsAux, hsmall]; omega
    · have hm2 : 2 ≤ m := by
        by_contra h2
        have : m = 1 := by omega
        subst this
        simp at hn
        omega
      have hdiv : n / 16 < 16 ^ (m - 1) := by
        have h16 : 16 ^ m = 16 ^ (m - 1) * 16 := by
          rw [← Nat.pow_succ]
          congr 1
          omega
        rw [h16] at hn
        exact Nat.div_lt_of_lt_mul (by omega)
      have := ih (n / 16) (m - 1) hdiv (by omega)
      simp only [natHexDigitsAux, if_neg hsmall, List.length_append,
        List.length_singleton]
      omega

/-- `parseUintHex64` inverts `%016x` formatting of a 64-bit value. -/
theorem parseUintHex64_pad16 (v : Nat) (hv : v < 2 ^ 64) :
    parseUintHex64 (padLeft '0' 16 (natHexDigits v)) = some v := by
  have hv16 : v < 16 ^ 16 := by norm_num at hv ⊢; omega
  have hlt : v < 16 ^ (v + 1) := by
    calc v < 2 ^ v := Nat.lt_two_pow v
    _ ≤ 16 ^ v := Nat.pow_le_pow_left (by omega) v
    _ ≤ 16 ^ (v + 1) := Nat.pow_le_pow_right (by omega) (by omega)
  obtain ⟨k, hk, hlen, hfold⟩ := foldlM_natHexDigitsAux (v + 1) v 0 hlt (by omega)
  have hklen : (natHexDigits v).length ≤ 16 :=
    natHexDigitsAux_length_le (v + 1) v 16 hv16 (by omega)
  have hfold0 : List.foldlM hexFoldStep 0 (natHexDigits v) = some v := by
    rw [natHexDigits] at *
    rw [hfold]
    simp
  have hsplit : padLeft '0' 16 (natHexDigits v) =
      List.replicate (16 - (natHexDigits v).length) '0' ++ natHexDigits v := rfl
  rw [parseUintHex64, hsplit]
  have hne : ¬ (List.replicate (16 - (natHexDigits v).length) '0' ++
      natHexDigits v).isEmpty = true := by
    simp only [List.isEmpty_iff, List.append_eq_nil]
    rw [natHexDigits]
    intro h
    have hl := congrArg List.length h.2
    rw [hlen] at hl
    simp at hl
    omega
  rw [if_neg hne]
  have hfn : (fun (acc : Nat) (c : Char) => (hexCharVal c).map fun d => acc * 16 + d) =
      hexFoldStep := rfl
  rw [hfn, List.foldlM_append, foldlM_zeros]
  simp only [Option.bind_eq_bind', Option.some_bind]
  rw [hfold0]
  have hv' : v < 18446744073709551616 := by omega
  simp [hv']

/-- The `%016x` format of a 64-bit value has exactly 16 characters. -/
theorem uint64ToHex_length (v : Nat) (hv : v < 2 ^ 64) (le : Bool) :
    (uint64ToHex v le).length = 16 := by
  have hv16 : v < 16 ^ 16 := by norm_num at hv ⊢; omega
  have hklen : (natHexDigits v).length ≤ 16 :=
    natHexDigitsAux_length_le (v + 1) v 16 hv16 (by omega)
  have hpad : (padLeft '0' 16 (natHexDigits v)).length = 16 := by
    simp [padLeft]
    omega
  cases le with
  | false => simpa [uint64ToHex] using hpad
  | true =>
    have h1 : uint64ToHex v true = revPairs (padLeft '0' 16 (natHexDigits v)) := rfl
    rw [h1, revPairs_length _ (by rw [hpad]), hpad]

/-- Little-endian hex encoding round-trips through the little-endian hex
parser (the core of the register write/read agreement). -/
theorem hexToUint64_uint64ToHex (v : Nat) (hv : v < 2 ^ 64) :
    hexToUint64 (uint64ToHex v true) true = some v := by
  have hv16 : v < 16 ^ 16 := by norm_num at hv ⊢; omega
  have hklen : (natHexDigits v).length ≤ 16 :=
    natHexDigitsAux_length_le (v + 1) v 16 hv16 (by omega)
  have hpad : (padLeft '0' 16 (natHexDigits v)).length = 16 := by
    simp [padLeft]
    omega
  have h1 : uint64ToHex v true = revPairs (padLeft '0' 16 (natHexDigits v)) := rfl
  have h2 : hexToUint64 (uint64ToHex v true) true =
      parseUintHex64 (revPairs (uint64ToHex v true)) := rfl
  rw [h2, h1, revPairs_revPairs _ (by rw [hpad])]
  exact parseUintHex64_pad16 v hv

/-! ### Payload windows and splicing -/

/-- The `n`-character window of a payload starting at position `a`. -/
def windowOf (data : List Char) (a n : Nat) : List Char := (data.drop a).take n

/-- An in-bounds slice is the corresponding window. -/
theorem sliceChars_eq_windowOf (data : List Char) (lo hi : Nat)
    (h1 : lo ≤ hi) (h2 : hi ≤ data.length) :
    sliceChars data lo hi = some (windowOf data lo (hi - lo)) := by
  simp [sliceChars, h1, h2, windowOf, List.drop_take]

/-- Splicing a window in place preserves the payload length. -/
theorem splice_length (data w : List Char) (a : Nat)
    (h : a + w.length ≤ data.length) :
    (data.take a ++ w ++ data.drop (a + w.length)).length = data.length := by
  simp [List.length_take, List.length_drop]
  omega

/-- Reading back the window that was just spliced in yields the spliced
text. -/
theorem splice_windowOf_self (data w : List Char) (a : Nat)
    (h : a + w.length ≤ data.length) :
    windowOf (data.take a ++ w ++ data.drop (a + w.length)) a w.length = w := by
  have hlen : (data.take a).length = a := List.length_take_of_le (by omega)
  rw [windowOf, List.append_assoc, List.drop_left' hlen]
  exact List.take_left' rfl

/-- A window lying entirely before a splice is unchanged by it. -/
theorem splice_windowOf_left (data w : List Char) (a s n : Nat)
    (h : s + n ≤ a) (ha : a ≤ data.length) :
    windowOf (data.take a ++ w ++ data.drop (a + w.length)) s n =
      windowOf data s n := by
  rw [windowOf, windowOf, List.append_assoc]
  rw [List.drop_append_eq_append_drop]
  rw [List.take_append_eq_append_take]
  have hlen : (data.take a).length = a := List.length_take_of_le ha
  have hds : ((data.take a).drop s).length = a - s := by
    simp [hlen]
  have h0 : n - ((data.take a).drop s).length = 0 := by
    rw [hds]
    omega
  rw [h0, List.take_zero, List.append_nil]
  rw [List.drop_take, List.take_take]
  congr 1
  omega

/-- A window lying entirely after a splice is unchanged by it
(provided the splice replaces same length by same length). -/
theorem splice_windowOf_right (data w : List Char) (a s n : Nat)
    (h : a + w.length ≤ s) (ha : a ≤ data.length) :
    windowOf (data.take a ++ w ++ data.drop (a + w.length)) s n =
      windowOf data s n := by
  rw [windowOf, windowOf]
  have hlen : (data.take a ++ w).length = a + w.length := by
    simp [List.length_take_of_le ha]
  rw [List.drop_append_eq_append_drop]
  have hnil : (data.take a ++ w).drop s = [] := by
    apply List.drop_eq_nil_of_le
    rw [hlen]
    omega
  rw [hnil, List.nil_append, hlen, List.drop_drop]
  congr 2
  omega

/-! ### Register step characterisations -/

/-- The three register names `parseRegisterData` / `WriteRegisters`
treat specially. -/
def isSpecialReg (name : String) : Bool :=
  name == "rip" || name == "rsp" || name == "rcx"

/-- Project the field a special register name denotes. -/
def regField (r : Registers) (name : String) : Nat :=
  if name = "rip" then r.rip
  else if name = "rsp" then r.rsp
  else if name = "rcx" then r.rcx
  else 0

/-- Set the field a special register name denotes. -/
def setRegField (r : Registers) (name : String) (v : Nat) : Registers :=
  if name = "rip" then { r with rip := v }
  else if name = "rsp" then { r with rsp := v }
  else if name = "rcx" then { r with rcx := v }
  else r

/-- `parseRegisterStep` in terms of `isSpecialReg` / `setRegField`. -/
theorem parseRegisterStep_eq (data : List Char) (r : Registers)
    (m : RegisterMetadata) :
    parseRegisterStep data r m =
      (sliceChars data (m.offset * 2) ((m.offset + m.size) * 2)).bind fun raw =>
        if isSpecialReg m.name then
          (hexToUint64 raw true).map (setRegField r m.name)
        else some r := by
  cases hs : sliceChars data (m.offset * 2) ((m.offset + m.size) * 2) with
  | none => simp [parseRegisterStep, hs]
  | some raw =>
    by_cases h1 : m.name = "rip"
    · simp only [parseRegisterStep, hs, h1, if_pos rfl, Option.bind_eq_bind',
        Option.some_bind, isSpecialReg, setRegField]
      cases hexToUint64 raw true <;> simp [setRegField]
    · by_cases h2 : m.name = "rsp"
      · simp only [parseRegisterStep, hs, h2, if_pos rfl, if_neg h1,
          Option.bind_eq_bind', Option.some_bind, isSpecialReg, setRegField]
        cases hexToUint64 raw true <;> simp [setRegField]
      · by_cases h3 : m.name = "rcx"
        · simp only [parseRegisterStep, hs, h3, if_pos rfl, if_neg h1,
            if_neg h2, Option.bind_eq_bind', Option.some_bind, isSpecialReg,
            setRegField]
          cases hexToUint64 raw true <;> simp [setRegField]
        · have hns : isSpecialReg m.name = false := by
            simp [isSpecialReg, h1, h2, h3]
          simp [parseRegisterStep, hs, h1, h2, h3, hns]

/-- `writeRegisterStep` in terms of `isSpecialReg` / `regField`. -/
theorem writeRegisterStep_eq (r : Registers) (data : List Char)
    (m : RegisterMetadata) :
    writeRegisterStep r data m =
      (sliceChars data 0 (m.offset * 2)).bind fun prefx =>
        (sliceChars data ((m.offset + m.size) * 2) data.length).bind fun suffix =>
          if isSpecialReg m.name then
            some (prefx ++ uint64ToHex (regField r m.name) true ++ suffix)
          else some data := by
  cases hp : sliceChars data 0 (m.offset * 2) with
  | none => simp [writeRegisterStep, hp]
  | some prefx =>
    cases hsfx : sliceChars data ((m.offset + m.size) * 2) data.length with
    | none => simp [writeRegisterStep, hp, hsfx]
    | some suffix =>
      by_cases h1 : m.name = "rip"
      · simp [writeRegisterStep, hp, hsfx, h1, isSpecialReg, regField]
      · by_cases h2 : m.name = "rsp"
        · simp [writeRegisterStep, hp, hsfx, h1, h2, isSpecialReg, regField]
        · by_cases h3 : m.name = "rcx"
          · simp [writeRegisterStep, hp, hsfx, h1, h2, h3, isSpecialReg,
              regField]
          · have hns : isSpecialReg m.name = false := by
              simp [isSpecialReg, h1, h2, h3]
            simp [writeRegisterStep, hp, hsfx, h1, h2, h3, hns]

/-- A value accepted by the hex parser is below `2^64`. -/
theorem parseUintHex64_lt (l : List Char) (v : Nat)
    (h : parseUintHex64 l = some v) : v < 2 ^ 64 := by
  unfold parseUintHex64 at h
  split at h
  · exact absurd h (by simp)
  · rw [Option.bind_eq_bind'] at h
    obtain ⟨w, hw, h2⟩ := Option.bind_eq_some.mp h
    by_cases hlt : w < 2 ^ 64
    · rw [if_pos hlt] at h2
      cases h2
      exact hlt
    · rw [if_neg hlt] at h2
      exact absurd h2 (by simp)

/-- A value accepted by `hexToUint64` is below `2^64`. -/
theorem hexToUint64_lt (l : List Char) (le : Bool) (v : Nat)
    (h : hexToUint64 l le = some v) : v < 2 ^ 64 :=
  parseUintHex64_lt _ _ h

/-- A successful register parse implies every register window is within
the payload. -/
theorem parse_fold_bounds :
    ∀ (ms : List RegisterMetadata) (data : List Char) (r0 r : Registers),
      List.foldlM (parseRegisterStep data) r0 ms = some r →
      ∀ m ∈ ms, (m.offset + m.size) * 2 ≤ data.length := by
  intro ms
  induction ms with
  | nil => intro data r0 r _ m hm; simp at hm
  | cons m0 tl ih =>
    intro data r0 r hfold m hm
    rw [List.foldlM_cons, Option.bind_eq_bind'] at hfold
    obtain ⟨r1, h1, h2⟩ := Option.bind_eq_some.mp hfold
    rcases List.mem_cons.mp hm with rfl | hm'
    · rw [parseRegisterStep_eq] at h1
      obtain ⟨raw, hraw, _⟩ := Option.bind_eq_some.mp h1
      by_cases hc : m.offset * 2 ≤ (m.offset + m.size) * 2 ∧
          (m.offset + m.size) * 2 ≤ data.length
      · exact hc.2
      · rw [sliceChars, if_neg hc] at hraw
        exact absurd hraw (by simp)
    · exact ih data r1 r h2 m hm'

/-- Setting one special field does not disturb the others. -/
theorem regField_setRegField_ne (r : Registers) (n name : String) (v : Nat)
    (h : n ≠ name) : regField (setRegField r n v) name = regField r name := by
  unfold regField setRegField
  split_ifs <;> simp_all

/-- Setting a special field and reading it back gives the new value. -/
theorem regField_setRegField_self (r : Registers) (name : String) (v : Nat)
    (h : isSpecialReg name = true) :
    regField (setRegField r name v) name = v := by
  have h' : name = "rip" ∨ name = "rsp" ∨ name = "rcx" := by
    simp only [isSpecialReg, Bool.or_eq_true, beq_iff_eq] at h
    tauto
  rcases h' with rfl | rfl | rfl <;> rfl

/-- A successful register parse keeps every field below `2^64` if the
initial fields are. -/
theorem parse_fold_field_lt :
    ∀ (ms : List RegisterMetadata) (data : List Char) (r0 r : Registers),
      List.foldlM (parseRegisterStep data) r0 ms = some r →
      r0.rip < 2 ^ 64 → r0.rsp < 2 ^ 64 → r0.rcx < 2 ^ 64 →
      r.rip < 2 ^ 64 ∧ r.rsp < 2 ^ 64 ∧ r.rcx < 2 ^ 64 := by
  intro ms
  induction ms with
  | nil =>
    intro data r0 r hfold h1 h2 h3
    simp only [List.foldlM_nil, Option.pure_def, Option.some.injEq] at hfold
    subst hfold
    exact ⟨h1, h2, h3⟩
  | cons m0 tl ih =>
    intro data r0 r hfold h1 h2 h3
    rw [List.foldlM_cons, Option.bind_eq_bind'] at hfold
    obtain ⟨r1, hstep, h2'⟩ := Option.bind_eq_some.mp hfold
    rw [parseRegisterStep_eq] at hstep
    obtain ⟨raw, _, hbody⟩ := Option.bind_eq_some.mp hstep
    by_cases hsp : isSpecialReg m0.name = true
    · rw [if_pos hsp] at hbody
      obtain ⟨v, hv, hset⟩ := Option.map_eq_some'.mp hbody
      have hvlt := hexToUint64_lt raw true v hv
      subst hset
      refine ih data _ r h2' ?_ ?_ ?_ <;>
        · unfold setRegField
          split_ifs <;> simp_all
    · rw [if_neg hsp] at hbody
      cases hbody
      exact ih data _ r h2' h1 h2 h3

/-- A special register with no metadata entry keeps its initial value
through a register parse. -/
theorem parse_fold_no_entry :
    ∀ (ms : List RegisterMetadata) (data : List Char) (r0 r : Registers),
      List.foldlM (parseRegisterStep data) r0 ms = some r →
      ∀ name, (∀ m ∈ ms, m.name ≠ name) →
        regField r name = regField r0 name := by
  intro ms
  induction ms with
  | nil =>
    intro data r0 r hfold name _
    simp only [List.foldlM_nil, Option.pure_def, Option.some.injEq] at hfold
    subst hfold
    rfl
  | cons m0 tl ih =>
    intro data r0 r hfold name hne
    rw [List.foldlM_cons, Option.bind_eq_bind'] at hfold
    obtain ⟨r1, hstep, h2⟩ := Option.bind_eq_some.mp hfold
    rw [parseRegisterStep_eq] at hstep
    obtain ⟨raw, _, hbody⟩ := Option.bind_eq_some.mp hstep
    have hrest := ih data r1 r h2 name (fun m hm => hne m (List.mem_cons_of_mem _ hm))
    rw [hrest]
    by_cases hsp : isSpecialReg m0.name = true
    · rw [if_pos hsp] at hbody
      obtain ⟨v, _, hset⟩ := Option.map_eq_some'.mp hbody
      subst hset
      exact regField_setRegField_ne r0 m0.name name v
        (hne m0 (List.mem_cons_self _ _))
    · rw [if_neg hsp] at hbody
      cases hbody
      rfl

/-- Parsing a payload whose special windows carry the little-endian hex of
`regs`' fields: the parse succeeds and recovers exactly those fields (all
other fields keep their initial value). -/
theorem parse_fold_windows :
    ∀ (ms : List RegisterMetadata) (data : List Char) (r0 regs : Registers),
      (∀ m ∈ ms, (m.offset + m.size) * 2 ≤ data.length) →
      (∀ m ∈ ms, isSpecialReg m.name = true →
        m.size = 8 ∧
          windowOf data (m.offset * 2) 16 =
            uint64ToHex (regField regs m.name) true) →
      (∀ m ∈ ms, isSpecialReg m.name = true →
        regField regs m.name < 2 ^ 64) →
      ∃ r, List.foldlM (parseRegisterStep data) r0 ms = some r ∧
        ∀ name, isSpecialReg name = true →
          regField r name =
            (if ∃ m ∈ ms, m.name = name then regField regs name
             else regField r0 name) := by
  intro ms
  induction ms with
  | nil =>
    intro data r0 regs _ _ _
    exact ⟨r0, rfl, fun name _ => by simp⟩
  | cons m0 tl ih =>
    intro data r0 regs hb hwin hlt
    have hb0 := hb m0 (List.mem_cons_self _ _)
    have hlo : m0.offset * 2 ≤ (m0.offset + m0.size) * 2 := by omega
    have hslice := sliceChars_eq_windowOf data (m0.offset * 2)
      ((m0.offset + m0.size) * 2) hlo hb0
    by_cases hsp : isSpecialReg m0.name = true
    · obtain ⟨hsz, hw⟩ := hwin m0 (List.mem_cons_self _ _) hsp
      have hlt0 := hlt m0 (List.mem_cons_self _ _) hsp
      have h16 : (m0.offset + m0.size) * 2 - m0.offset * 2 = 16 := by omega
      rw [h16, hw] at hslice
      have hhex := hexToUint64_uint64ToHex (regField regs m0.name) hlt0
      obtain ⟨r, hfold, hchar⟩ := ih data
        (setRegField r0 m0.name (regField regs m0.name)) regs
        (fun m hm => hb m (List.mem_cons_of_mem _ hm))
        (fun m hm => hwin m (List.mem_cons_of_mem _ hm))
        (fun m hm => hlt m (List.mem_cons_of_mem _ hm))
      refine ⟨r, ?_, ?_⟩
      · rw [List.foldlM_cons, Option.bind_eq_bind', parseRegisterStep_eq,
          hslice]
        simp only [Option.some_bind, if_pos hsp, hhex, Option.map_some']
        exact hfold
      · intro name hname
        rw [hchar name hname]
        by_cases htl : ∃ m ∈ tl, m.name = name
        · have hcons : ∃ m ∈ m0 :: tl, m.name = name :=
            ⟨htl.choose, List.mem_cons_of_mem _ htl.choose_spec.1,
              htl.choose_spec.2⟩
          rw [if_pos htl, if_pos hcons]
        · rw [if_neg htl]
          by_cases hm0 : m0.name = name
          · rw [if_pos ⟨m0, List.mem_cons_self _ _, hm0⟩]
            rw [← hm0, regField_setRegField_self r0 m0.name _ hsp]
          · rw [if_neg ?_, regField_setRegField_ne r0 m0.name name _ hm0]
            rintro ⟨m, hm, hmn⟩
            rcases List.mem_cons.mp hm with rfl | hm'
            · exact hm0 hmn
            · exact htl ⟨m, hm', hmn⟩
    · obtain ⟨r, hfold, hchar⟩ := ih data r0 regs
        (fun m hm => hb m (List.mem_cons_of_mem _ hm))
        (fun m hm => hwin m (List.mem_cons_of_mem _ hm))
        (fun m hm => hlt m (List.mem_cons_of_mem _ hm))
      refine ⟨r, ?_, ?_⟩
      · rw [List.foldlM_cons, Option.bind_eq_bind', parseRegisterStep_eq,
          hslice]
        simp only [Option.some_bind, if_neg hsp]
        exact hfold
      · intro name hname
        rw [hchar name hname]
        by_cases htl : ∃ m ∈ tl, m.name = name
        · rw [if_pos htl, if_pos ⟨htl.choose, List.mem_cons_of_mem _
            htl.choose_spec.1, htl.choose_spec.2⟩]
        · rw [if_neg htl, if_neg ?_]
          rintro ⟨m, hm, hmn⟩
          rcases List.mem_cons.mp hm with rfl | hm'
          · rw [hmn] at hsp
            exact hsp hname
          · exact htl ⟨m, hm', hmn⟩

/-- The `WriteRegisters` payload construction: under the window bounds,
special sizes of 8 bytes, bounded field values and pairwise-disjoint
special windows, the fold succeeds, preserves the payload length, leaves
every region disjoint from all special windows untouched, and each special
window holds the little-endian hex of the corresponding field. -/
theorem build_fold_spec :
    ∀ (ms : List RegisterMetadata) (data : List Char) (regs : Registers),
      (∀ m ∈ ms, (m.offset + m.size) * 2 ≤ data.length) →
      (∀ m ∈ ms, isSpecialReg m.name = true →
        m.size = 8 ∧ regField regs m.name < 2 ^ 64) →
      List.Pairwise (fun m m' =>
        isSpecialReg m.name = true → isSpecialReg m'.name = true →
          m.offset + m.size ≤ m'.offset ∨ m'.offset + m'.size ≤ m.offset) ms →
      ∃ nd, List.foldlM (writeRegisterStep regs) data ms = some nd ∧
        nd.length = data.length ∧
        (∀ m ∈ ms, isSpecialReg m.name = true →
          windowOf nd (m.offset * 2) 16 =
            uint64ToHex (regField regs m.name) true) ∧
        (∀ s n, (∀ m ∈ ms, isSpecialReg m.name = true →
            s + n ≤ m.offset * 2 ∨ m.offset * 2 + 16 ≤ s) →
          windowOf nd s n = windowOf data s n) := by
  intro ms
  induction ms with
  | nil =>
    intro data regs _ _ _
    exact ⟨data, rfl, rfl, fun m hm => by simp at hm, fun s n _ => rfl⟩
  | cons m0 tl ih =>
    intro data regs hb hspec hdisj
    obtain ⟨hhead, htail⟩ := List.pairwise_cons.mp hdisj
    have hb0 := hb m0 (List.mem_cons_self _ _)
    have hpfx : sliceChars data 0 (m0.offset * 2) =
        some (data.take (m0.offset * 2)) := by
      rw [sliceChars, if_pos ⟨Nat.zero_le _, by omega⟩, List.drop_zero]
    have hsfx : sliceChars data ((m0.offset + m0.size) * 2) data.length =
        some (data.drop ((m0.offset + m0.size) * 2)) := by
      rw [sliceChars, if_pos ⟨hb0, le_refl _⟩, List.take_length]
    by_cases hsp : isSpecialReg m0.name = true
    · obtain ⟨hsz, hfield⟩ := hspec m0 (List.mem_cons_self _ _) hsp
      have hwl : (uint64ToHex (regField regs m0.name) true).length = 16 :=
        uint64ToHex_length _ hfield _
      have hidx : (m0.offset + m0.size) * 2 =
          m0.offset * 2 + (uint64ToHex (regField regs m0.name) true).length := by
        rw [hwl]
        omega
      have hbw : m0.offset * 2 +
          (uint64ToHex (regField regs m0.name) true).length ≤ data.length := by
        rw [hwl]
        omega
      have hstep0 : writeRegisterStep regs data m0 =
          some (data.take (m0.offset * 2) ++ uint64ToHex (regField regs m0.name) true ++
            data.drop ((m0.offset + m0.size) * 2)) := by
        rw [writeRegisterStep_eq, hpfx, hsfx]
        simp [hsp]
      have hstep : writeRegisterStep regs data m0 =
          some (data.take (m0.offset * 2) ++ uint64ToHex (regField regs m0.name) true ++
            data.drop (m0.offset * 2 +
              (uint64ToHex (regField regs m0.name) true).length)) := by
        rw [hstep0, hidx]
      have hlen1 := splice_length data (uint64ToHex (regField regs m0.name) true)
        (m0.offset * 2) hbw
      obtain ⟨nd, hfold, hlen, hwin, hout⟩ := ih
        (data.take (m0.offset * 2) ++ uint64ToHex (regField regs m0.name) true ++
          data.drop (m0.offset * 2 +
            (uint64ToHex (regField regs m0.name) true).length))
        regs
        (fun m hm => by rw [hlen1]; exact hb m (List.mem_cons_of_mem _ hm))
        (fun m hm => hspec m (List.mem_cons_of_mem _ hm))
        htail
      refine ⟨nd, ?_, by rw [hlen, hlen1], ?_, ?_⟩
      · rw [List.foldlM_cons, Option.bind_eq_bind', hstep, Option.some_bind]
        exact hfold
      · intro m hm hspm
        rcases List.mem_cons.mp hm with rfl | hm'
        · have hnd1 : windowOf nd (m.offset * 2) 16 =
              windowOf (data.take (m.offset * 2) ++
                uint64ToHex (regField regs m.name) true ++
                data.drop (m.offset * 2 +
                  (uint64ToHex (regField regs m.name) true).length))
                (m.offset * 2) 16 := by
            apply hout
            intro m' hm' hspm'
            have h8 := (hspec m' (List.mem_cons_of_mem _ hm') hspm').1
            have := hhead m' hm' hspm hspm'
            omega
          rw [hnd1, ← hwl]
          exact splice_windowOf_self data _ (m.offset * 2) hbw
        · exact hwin m hm' hspm
      · intro s n hdis
        have h1 : windowOf nd s n =
            windowOf (data.take (m0.offset * 2) ++
              uint64ToHex (regField regs m0.name) true ++
              data.drop (m0.offset * 2 +
                (uint64ToHex (regField regs m0.name) true).length)) s n :=
          hout s n (fun m hm => hdis m (List.mem_cons_of_mem _ hm))
        rw [h1]
        rcases hdis m0 (List.mem_cons_self _ _) hsp with hL | hR
        · exact splice_windowOf_left data _ (m0.offset * 2) s n hL (by omega)
        · apply splice_windowOf_right data _ (m0.offset * 2) s n ?_ (by omega)
          rw [hwl]
          omega
    · have hstep : writeRegisterStep regs data m0 = some data := by
        rw [writeRegisterStep_eq, hpfx]
        rw [hsfx]
        simp [hsp]
      obtain ⟨nd, hfold, hlen, hwin, hout⟩ := ih data regs
        (fun m hm => hb m (List.mem_cons_of_mem _ hm))
        (fun m hm => hspec m (List.mem_cons_of_mem _ hm))
        htail
      refine ⟨nd, ?_, hlen, ?_, ?_⟩
      · rw [List.foldlM_cons, Option.bind_eq_bind', hstep, Option.some_bind]
        exact hfold
      · intro m hm hspm
        rcases List.mem_cons.mp hm with rfl | hm'
        · exact absurd hspm (by simp [hsp])
        · exact hwin m hm' hspm
      · intro s n hdis
        exact hout s n (fun m hm => hdis m (List.mem_cons_of_mem _ hm))

/-- Two register files agreeing on all special fields are equal. -/
theorem regs_eq_of_regField (a b : Registers)
    (h : ∀ name, isSpecialReg name = true → regField a name = regField b name) :
    a = b := by
  cases a
  cases b
  have h1 := h "rip" (by decide)
  have h2 := h "rsp" (by decide)
  have h3 := h "rcx" (by decide)
  simp [regField] at h1 h2 h3
  simp [h1, h2, h3]

/-- C9: for every thread, reading the registers and immediately writing
back the same values leaves the remote register file unchanged. For any
register metadata list whose special (`rip`/`rsp`/`rcx`) entries are
8 bytes wide and pairwise disjoint, and any payload `data` that parses to
`regs`, the `G`-packet payload `WriteRegisters` builds from `data` and
`regs` is defined, has the same length, and parses back to exactly
`regs`. -/
theorem C9_register_write_roundtrip (ms : List RegisterMetadata)
    (data : List Char) (regs : Registers)
    (hparse : parseRegisterData ms data = some regs)
    (hsz : ∀ m ∈ ms, isSpecialReg m.name = true → m.size = 8)
    (hdisj : List.Pairwise (fun m m' =>
      isSpecialReg m.name = true → isSpecialReg m'.name = true →
        m.offset + m.size ≤ m'.offset ∨ m'.offset + m'.size ≤ m.offset) ms) :
    ∃ nd, buildWriteRegData ms data regs = some nd ∧
      nd.length = data.length ∧ parseRegisterData ms nd = some regs := by
  have hb := parse_fold_bounds ms data ⟨0, 0, 0⟩ regs hparse
  have hflt := parse_fold_field_lt ms data ⟨0, 0, 0⟩ regs hparse
    (by norm_num) (by norm_num) (by norm_num)
  have hfieldlt : ∀ name, isSpecialReg name = true →
      regField regs name < 2 ^ 64 := by
    intro name hn
    have h' : name = "rip" ∨ name = "rsp" ∨ name = "rcx" := by
      simp only [isSpecialReg, Bool.or_eq_true, beq_iff_eq] at hn
      tauto
    rcases h' with rfl | rfl | rfl
    · unfold regField
      rw [if_pos rfl]
      exact hflt.1
    · unfold regField
      rw [if_neg (by decide), if_pos rfl]
      exact hflt.2.1
    · unfold regField
      rw [if_neg (by decide), if_neg (by decide), if_pos rfl]
      exact hflt.2.2
  obtain ⟨nd, hbuild, hlen, hwin, hout⟩ := build_fold_spec ms data regs hb
    (fun m hm hspm => ⟨hsz m hm hspm, hfieldlt m.name hspm⟩) hdisj
  obtain ⟨r, hfold, hchar⟩ := parse_fold_windows ms nd ⟨0, 0, 0⟩ regs
    (fun m hm => by rw [hlen]; exact hb m hm)
    (fun m hm hspm => ⟨hsz m hm hspm, hwin m hm hspm⟩)
    (fun m hm hspm => hfieldlt m.name hspm)
  have hfield : ∀ name, isSpecialReg name = true →
      regField r name = regField regs name := by
    intro name hn
    rw [hchar name hn]
    by_cases hex : ∃ m ∈ ms, m.name = name
    · rw [if_pos hex]
    · rw [if_neg hex]
      have h0 := parse_fold_no_entry ms data ⟨0, 0, 0⟩ regs hparse name
        (fun m hm hmn => hex ⟨m, hm, hmn⟩)
      rw [h0]
  have hr : r = regs := regs_eq_of_regField r regs hfield
  exact ⟨nd, hbuild, hlen, by rw [parseRegisterData, hfold, hr]⟩

/-- Witness for C9: the darwin amd64 layout restricted to the three
special registers (offsets 0, 8 and 16, size 8 each) and a 48-character
all-zero payload. -/
theorem C9_register_write_roundtrip_witness :
    ∃ nd, buildWriteRegData
        [⟨"rip", 0, 8⟩, ⟨"rsp", 8, 8⟩, ⟨"rcx", 16, 8⟩]
        (List.replicate 48 '0') ⟨0, 0, 0⟩ = some nd ∧
      nd.length = (List.replicate 48 '0').length ∧
      parseRegisterData [⟨"rip", 0, 8⟩, ⟨"rsp", 8, 8⟩, ⟨"rcx", 16, 8⟩] nd =
        some ⟨0, 0, 0⟩ :=
  C9_register_write_roundtrip _ _ _ (by decide) (by decide) (by decide)

/-! ## A concrete `map[int8]int8` instance (C1)

DWARF types and memory for a two-bucket (`B = 1`) map whose first bucket
has one live slot and an overflow bucket, and whose second bucket has one
live slot at index 1. -/

/-- `uint8`, the tophash element type. -/
def c1Uint8T : DwarfType := .uint 1

/-- `int8`, key and value type of the example map. -/
def c1Int8T : DwarfType := .int 1

/-- The runtime bucket struct: `tophash [8]uint8`, `keys [8]int8`,
`values [8]int8`, trailing `overflow` pointer. -/
def c1BucketT : DwarfType :=
  .strukt "bucket<int8,int8>" 32
    [("tophash", 0, .array 8 c1Uint8T),
     ("keys", 8, .array 8 c1Int8T),
     ("values", 16, .array 8 c1Int8T),
     ("overflow", 24, .ptr 8 (.void 0))]

/-- Pointer to the bucket struct. -/
def c1BucketPtrT : DwarfType := .ptr 8 c1BucketT

/-- The runtime `hmap` struct, restricted to the fields the parser
reads (`B`, `buckets`, `oldbuckets`) plus the leading `count`. -/
def c1HmapT : DwarfType :=
  .strukt "hash<int8,int8>" 32
    [("count", 0, .int 8),
     ("B", 8, c1Uint8T),
     ("buckets", 16, c1BucketPtrT),
     ("oldbuckets", 24, .ptr 8 (.void 0))]

/-- The map typedef wrapping `*hmap`. -/
def c1MapT : DwarfType := DwarfType.typedef ("map[int8]int8") (.ptr 8 c1HmapT)

/-- The `hmap` header at `0x100`: count 2, `B = 1`, buckets at `0x200`,
no old buckets. -/
def c1HmapBytes : List Nat :=
  leBytes8 2 ++ [1] ++ List.replicate 7 0 ++ leBytes8 0x200 ++ leBytes8 0

/-- Bucket 0 at `0x200`: slot 0 live (`tophash 1`), key 42 and value 99,
overflow bucket at `0x300`. -/
def c1Bucket0Bytes : List Nat :=
  [1, 0, 0, 0, 0, 0, 0, 0] ++ [42, 0, 0, 0, 0, 0, 0, 0] ++
    [99, 0, 0, 0, 0, 0, 0, 0] ++ leBytes8 0x300

/-- Bucket 1 at `0x220` (adjacent to bucket 0): slot 1 live (`tophash 3`),
key 7 and value 8, no overflow. -/
def c1Bucket1Bytes : List Nat :=
  [0, 3, 0, 0, 0, 0, 0, 0] ++ [0, 7, 0, 0, 0, 0, 0, 0] ++
    [0, 8, 0, 0, 0, 0, 0, 0] ++ leBytes8 0

/-- The overflow bucket at `0x300`: slot 0 live, key 11 and value 12,
chain ends (null overflow). -/
def c1OverflowBytes : List Nat :=
  [5, 0, 0, 0, 0, 0, 0, 0] ++ [11, 0, 0, 0, 0, 0, 0, 0] ++
    [12, 0, 0, 0, 0, 0, 0, 0] ++ leBytes8 0

/-- The example memory: the hmap header and the three buckets. -/
def c1read (addr len : Nat) : Option (List Nat) :=
  if addr = 0x100 ∧ len = 32 then some c1HmapBytes
  else if addr = 0x200 ∧ len = 32 then some c1Bucket0Bytes
  else if addr = 0x220 ∧ len = 32 then some c1Bucket1Bytes
  else if addr = 0x300 ∧ len = 32 then some c1OverflowBytes
  else none

/-- The parser over the example memory. -/
def c1P : VParser := ⟨c1read, none⟩

/-- The live slots of the example map in slot order: bucket 0's slot,
its overflow bucket's slot, then bucket 1's slot. -/
def c1Entries : List (Value × Value) :=
  [(.intV c1Int8T 1 42, .intV c1Int8T 1 99),
   (.intV c1Int8T 1 11, .intV c1Int8T 1 12),
   (.intV c1Int8T 1 7, .intV c1Int8T 1 8)]

/-- Whether a parsed value is a map rendering. -/
def Value.isMap : Value → Bool
  | .mapV _ _ => true
  | _ => false

/-- Spec-side live-slot semantics, from the specification's words: slot
`j` is live exactly when `tophash[j] ≠ 0`, and a live slot pairs `keys[j]`
with `values[j]`. -/
def liveSlotPairsSpec (hashes : List Nat) (ks vs : List Value) (j : Nat) :
    List (Value × Value) :=
  match hashes with
  | [] => []
  | h :: rest =>
    if h ≠ 0 then
      match ks.get? j, vs.get? j with
      | some k, some v => (k, v) :: liveSlotPairsSpec rest ks vs (j + 1)
      | _, _ => liveSlotPairsSpec rest ks vs (j + 1)
    else liveSlotPairsSpec rest ks vs (j + 1)

/-- The `tophash` loop agrees with the spec-side live-slot semantics
whenever the hashes are `uint8` values and the key/value arrays cover the
slots. -/
theorem bucketEntries_liveSpec :
    ∀ (hashes : List (DwarfType × Nat)) (ks vs : List Value) (j : Nat),
      j + hashes.length ≤ ks.length → j + hashes.length ≤ vs.length →
      bucketEntries (hashes.map fun q => Value.uintV q.1 1 q.2) ks vs j =
        some (liveSlotPairsSpec (hashes.map Prod.snd) ks vs j) := by
  intro hashes
  induction hashes with
  | nil => intro ks vs j _ _; rfl
  | cons q rest ih =>
    intro ks vs j hk hv
    have hk' : (j + 1) + rest.length ≤ ks.length := by
      simp only [List.length_cons] at hk
      omega
    have hv' : (j + 1) + rest.length ≤ vs.length := by
      simp only [List.length_cons] at hv
      omega
    have htail := ih ks vs (j + 1) hk' hv'
    simp only [List.map_cons, bucketEntries, Option.bind_eq_bind',
      Option.some_bind]
    rw [htail]
    simp only [Option.some_bind]
    obtain ⟨k, hkj⟩ : ∃ k, ks[j]? = some k :=
      ⟨_, List.getElem?_eq_getElem (by simp only [List.length_cons] at hk; omega)⟩
    obtain ⟨v, hvj⟩ : ∃ v, vs[j]? = some v :=
      ⟨_, List.getElem?_eq_getElem (by simp only [List.length_cons] at hv; omega)⟩
    by_cases h0 : q.2 = 0
    · simp [h0, liveSlotPairsSpec]
    · simp [h0, liveSlotPairsSpec, hkj, hvj]

/-- C1 counterexample: on the example map value, `parseValue` does not
produce a map rendering (the typedef dispatch to `parseMapValue` is
commented out in `value.go`, so the value parses as the wrapped `*hmap`
pointer), even though `parseMapValue` itself decodes the claimed
entries. -/
theorem C1_map_dispatch_missing :
    (parseValue c1P 40 c1MapT (leBytes8 0x100) 1).map Value.isMap =
      some false ∧
    parseMapValue c1P 40 c1MapT (leBytes8 0x100) 1 =
      some (.mapV c1MapT c1Entries) := ⟨rfl, rfl⟩

/-- C1 (amended): the released parser never renders maps — the typedef
case of `parseValue` parses the underlying type with the same budget, so a
map-typed value parses as the wrapped `*hmap` pointer.  The unreachable
`parseMapValue` does implement the claimed algorithm: a null bucket
pointer contributes no entries; slot `j` of a bucket is live exactly when
`tophash[j] ≠ 0` and pairs `keys[j]` with `values[j]` (the spec-side
live-slot recursion); and on the concrete `B = 1` map it walks both
buckets and the overflow chain until null, yielding exactly the live
slots. -/
theorem C1_map_parsing_amended :
    (∀ (p : VParser) (fuel : Nat) (tn : String) (u : DwarfType)
        (val : List Nat) (d : Int),
      parseValue p (fuel + 1) (DwarfType.typedef tn u) val d =
        parseValue p fuel u val d) ∧
    (∀ (p : VParser) (fuel : Nat) (t : DwarfType) (pointed : Option Value)
        (d : Int),
      parseBucket p (fuel + 1) (.ptrV t 0 pointed) d = some []) ∧
    (∀ (hashes : List (DwarfType × Nat)) (ks vs : List Value) (j : Nat),
      j + hashes.length ≤ ks.length → j + hashes.length ≤ vs.length →
      bucketEntries (hashes.map fun q => Value.uintV q.1 1 q.2) ks vs j =
        some (liveSlotPairsSpec (hashes.map Prod.snd) ks vs j)) ∧
    parseMapValue c1P 40 c1MapT (leBytes8 0x100) 1 =
      some (.mapV c1MapT c1Entries) :=
  ⟨fun _ _ _ _ _ _ => rfl, fun _ _ _ _ _ => rfl, bucketEntries_liveSpec, rfl⟩

/-- Witness for C1: the live-slot conjunct applied to a two-slot bucket
whose first slot is live and second is not. -/
theorem C1_map_parsing_amended_witness :
    bucketEntries
        [Value.uintV (.uint 1) 1 1, Value.uintV (.uint 1) 1 0]
        [Value.intV (.int 1) 1 5, Value.intV (.int 1) 1 6]
        [Value.intV (.int 1) 1 7, Value.intV (.int 1) 1 8] 0 =
      some (liveSlotPairsSpec [1, 0]
        [Value.intV (.int 1) 1 5, Value.intV (.int 1) 1 6]
        [Value.intV (.int 1) 1 7, Value.intV (.int 1) 1 8] 0) :=
  C1_map_parsing_amended.2.2.1 [((.uint 1), 1), ((.uint 1), 0)]
    [Value.intV (.int 1) 1 5, Value.intV (.int 1) 1 6]
    [Value.intV (.int 1) 1 7, Value.intV (.int 1) 1 8] 0
    (by decide) (by decide)

end Tgo
